import Mathlib

/-!
Verification development for the iarnet-global registry-and-dispatch engine.

The Go source is shallowly embedded: the registry store
(`internal/domain/registry/manager.go`, `types.go`), the registry service
(`GetDomainStats`), the heartbeat intake RPC (`RegisterNode`, `HealthCheck`)
and the scheduler (`DeployComponent`, `selectRandomNode`) become pure Lean
functions over an explicit `Manager` state.  Go maps are embedded as
association lists with no duplicate keys, `time.Time`/`time.Duration` as
abstract `Int` instants (only differences are ever compared), Go `nil`
pointers as `Option`, and fallible operations as `Except`.
-/

namespace IarnetGlobal

instance {ε α : Type} [DecidableEq ε] [DecidableEq α] : DecidableEq (Except ε α) :=
  fun x y =>
    match x, y with
    | .error a, .error b =>
      if h : a = b then .isTrue (by rw [h])
      else .isFalse (by intro hc; cases hc; exact h rfl)
    | .error _, .ok _ => .isFalse (by intro hc; cases hc)
    | .ok _, .error _ => .isFalse (by intro hc; cases hc)
    | .ok a, .ok b =>
      if h : a = b then .isTrue (by rw [h])
      else .isFalse (by intro hc; cases hc; exact h rfl)

/-! ### Association-list embedding of Go maps -/

/-- Lookup in a Go map (`m[k]`). -/
def getk {α : Type} : List (String × α) → String → Option α
  | [], _ => none
  | (k', v) :: rest, k => if k' = k then some v else getk rest k

/-- Update/insert in a Go map (`m[k] = v`): replace the first binding of `k`,
or append a fresh binding. -/
def setk {α : Type} : List (String × α) → String → α → List (String × α)
  | [], k, v => [(k, v)]
  | (k', v') :: rest, k, v =>
    if k' = k then (k, v) :: rest else (k', v') :: setk rest k v

/-- Deletion from a Go map (`delete(m, k)`). -/
def delk {α : Type} (m : List (String × α)) (k : String) : List (String × α) :=
  m.filter (fun p => decide (p.1 ≠ k))

/-- The keys of a Go map. -/
def keysOf {α : Type} (m : List (String × α)) : List String :=
  m.map Prod.fst

@[simp] theorem getk_nil {α : Type} (k : String) : getk ([] : List (String × α)) k = none := rfl

@[simp] theorem getk_cons {α : Type} (k' k : String) (v : α) (rest : List (String × α)) :
    getk ((k', v) :: rest) k = if k' = k then some v else getk rest k := rfl

@[simp] theorem setk_nil {α : Type} (k : String) (v : α) :
    setk ([] : List (String × α)) k v = [(k, v)] := rfl

@[simp] theorem setk_cons {α : Type} (k' k : String) (v' v : α) (rest : List (String × α)) :
    setk ((k', v') :: rest) k v =
      if k' = k then (k, v) :: rest else (k', v') :: setk rest k v := rfl

@[simp] theorem delk_nil {α : Type} (k : String) : delk ([] : List (String × α)) k = [] := rfl

theorem delk_cons {α : Type} (k' k : String) (v : α) (rest : List (String × α)) :
    delk ((k', v) :: rest) k = if k' = k then delk rest k else (k', v) :: delk rest k := by
  by_cases h : k' = k <;> simp [delk, List.filter_cons, h]

@[simp] theorem keysOf_nil {α : Type} : keysOf ([] : List (String × α)) = [] := rfl

@[simp] theorem keysOf_cons {α : Type} (k : String) (v : α) (rest : List (String × α)) :
    keysOf ((k, v) :: rest) = k :: keysOf rest := rfl

@[simp] theorem getk_setk_self {α : Type} (m : List (String × α)) (k : String) (v : α) :
    getk (setk m k v) k = some v := by
  induction m with
  | nil => simp
  | cons p rest ih =>
    obtain ⟨k', v'⟩ := p
    by_cases h : k' = k <;> simp [h, ih]

theorem getk_setk_ne {α : Type} (m : List (String × α)) {k k' : String} (v : α)
    (h : k' ≠ k) : getk (setk m k v) k' = getk m k' := by
  induction m with
  | nil => simp [Ne.symm h]
  | cons p rest ih =>
    obtain ⟨k'', v''⟩ := p
    by_cases hk : k'' = k
    · subst hk
      simp [Ne.symm h]
    · simp [hk, ih]

@[simp] theorem getk_delk_self {α : Type} (m : List (String × α)) (k : String) :
    getk (delk m k) k = none := by
  induction m with
  | nil => simp
  | cons p rest ih =>
    obtain ⟨k', v⟩ := p
    by_cases h : k' = k <;> simp [delk_cons, h, ih]

theorem getk_delk_ne {α : Type} (m : List (String × α)) {k k' : String}
    (h : k' ≠ k) : getk (delk m k) k' = getk m k' := by
  induction m with
  | nil => simp
  | cons p rest ih =>
    obtain ⟨k'', v⟩ := p
    by_cases hk : k'' = k
    · subst hk
      simp [delk_cons, Ne.symm h, ih]
    · simp [delk_cons, hk, ih]

theorem getk_eq_none_of_not_mem_keys {α : Type} {m : List (String × α)} {k : String}
    (h : k ∉ keysOf m) : getk m k = none := by
  induction m with
  | nil => rfl
  | cons p rest ih =>
    obtain ⟨k', v⟩ := p
    rw [keysOf_cons, List.mem_cons, not_or] at h
    simp [Ne.symm h.1, ih h.2]

theorem mem_keys_of_getk_eq_some {α : Type} {m : List (String × α)} {k : String} {v : α}
    (h : getk m k = some v) : k ∈ keysOf m := by
  induction m with
  | nil => simp [getk] at h
  | cons p rest ih =>
    obtain ⟨k', v'⟩ := p
    by_cases hk : k' = k
    · simp [hk]
    · simp [hk] at h
      simp [ih h]

theorem getk_isSome_of_mem_keys {α : Type} {m : List (String × α)} {k : String}
    (h : k ∈ keysOf m) : (getk m k).isSome := by
  induction m with
  | nil => simp at h
  | cons p rest ih =>
    obtain ⟨k', v'⟩ := p
    by_cases hk : k' = k
    · simp [hk]
    · rw [keysOf_cons, List.mem_cons] at h
      rcases h with h | h
      · exact absurd h.symm hk
      · simp [hk, ih h]

theorem keysOf_setk_of_mem {α : Type} {m : List (String × α)} {k : String} {w : α}
    (h : getk m k = some w) (v : α) : keysOf (setk m k v) = keysOf m := by
  induction m with
  | nil => simp [getk] at h
  | cons p rest ih =>
    obtain ⟨k', v'⟩ := p
    by_cases hk : k' = k
    · simp [hk]
    · simp [hk] at h
      simp [hk, ih h]

theorem keysOf_setk_of_fresh {α : Type} {m : List (String × α)} {k : String}
    (h : getk m k = none) (v : α) : keysOf (setk m k v) = keysOf m ++ [k] := by
  induction m with
  | nil => simp
  | cons p rest ih =>
    obtain ⟨k', v'⟩ := p
    by_cases hk : k' = k
    · simp [hk] at h
    · simp [hk] at h
      simp [hk, ih h]

theorem nodup_keys_setk {α : Type} {m : List (String × α)} {k : String} (v : α)
    (h : (keysOf m).Nodup) : (keysOf (setk m k v)).Nodup := by
  cases hg : getk m k with
  | none =>
    rw [keysOf_setk_of_fresh hg v]
    refine h.append (by simp) ?_
    intro a ha hb
    simp at hb
    subst hb
    have hs := getk_isSome_of_mem_keys ha
    rw [hg] at hs
    simp at hs
  | some w =>
    rw [keysOf_setk_of_mem hg v]
    exact h

theorem keysOf_delk_sublist {α : Type} (m : List (String × α)) (k : String) :
    List.Sublist (keysOf (delk m k)) (keysOf m) := by
  simpa [keysOf, delk] using (List.filter_sublist m).map Prod.fst

theorem nodup_keys_delk {α : Type} {m : List (String × α)} (k : String)
    (h : (keysOf m).Nodup) : (keysOf (delk m k)).Nodup :=
  h.sublist (keysOf_delk_sublist m k)

theorem getk_of_mem {α : Type} {m : List (String × α)} {k : String} {v : α}
    (hn : (keysOf m).Nodup) (h : (k, v) ∈ m) : getk m k = some v := by
  induction m with
  | nil => simp at h
  | cons p rest ih =>
    obtain ⟨k', v'⟩ := p
    rw [keysOf_cons, List.nodup_cons] at hn
    rcases List.mem_cons.mp h with h | h
    · rw [Prod.mk.injEq] at h
      simp [h.1.symm, h.2]
    · by_cases hk : k' = k
      · subst hk
        exact absurd (List.mem_map_of_mem Prod.fst h) hn.1
      · simp [hk, ih hn.2 h]

theorem mem_of_getk_eq_some {α : Type} {m : List (String × α)} {k : String} {v : α}
    (h : getk m k = some v) : (k, v) ∈ m := by
  induction m with
  | nil => simp [getk] at h
  | cons p rest ih =>
    obtain ⟨k', v'⟩ := p
    by_cases hk : k' = k
    · simp [hk] at h
      simp [hk, h]
    · simp [hk] at h
      simp [ih h]

/-! ### Data model (`internal/domain/registry/types.go`) -/

/-- `ResourceTags` from types.go: a 4-field Boolean capability vector. -/
structure ResourceTags where
  CPU : Bool
  GPU : Bool
  Memory : Bool
  Camera : Bool
deriving DecidableEq, Repr

/-- `NewEmptyResourceTags` from types.go. -/
def NewEmptyResourceTags : ResourceTags :=
  ⟨false, false, false, false⟩

/-- `NodeStatus` from types.go (a string enum in Go; the store only ever
holds the three declared constants). -/
inductive NodeStatus where
  | online
  | offline
  | error
deriving DecidableEq, Repr

/-- Modelled from the spec: the `ResourceCapacity` sub-vector (integer CPU
millicores, GPU count, memory bytes).  The struct declaration is not among
the provided sources; the scheduler (`part_010`) and the HTTP layer read
fields `CPU`, `GPU`, `Memory` of `Total`/`Available`. -/
structure ResourceVector where
  CPU : Int
  GPU : Int
  Memory : Int
deriving DecidableEq, Repr

/-- Modelled from the spec: `ResourceCapacity` carries two nullable
sub-vectors `Total` and `Available` (the scheduler guards both against nil). -/
structure ResourceCapacity where
  Total : Option ResourceVector
  Available : Option ResourceVector
deriving DecidableEq, Repr

/-- `Node` from types.go, with the `ResourceCapacity` field that the
scheduler and HTTP layer read.  Times are abstract `Int` instants. -/
structure Node where
  ID : String
  DomainID : String
  Name : String
  Address : String
  IsHead : Bool
  Status : NodeStatus
  ResourceTags : Option ResourceTags
  ResourceCapacity : Option ResourceCapacity
  LastSeen : Int
  CreatedAt : Int
  UpdatedAt : Int
deriving DecidableEq, Repr

/-- `Node.Clone`: the store clones nodes before handing them out.  In the
by-value embedding a deep copy is the identity. -/
def Node.Clone (n : Node) : Node := n

/-- `Domain` from types.go. -/
structure Domain where
  ID : String
  Name : String
  Description : String
  ResourceTags : Option ResourceTags
  HeadNodeID : Option String
  NodeIDs : List String
  CreatedAt : Int
  UpdatedAt : Int
deriving DecidableEq, Repr

/-- The error values of `internal/domain/registry` (errors.go). -/
inductive RegistryErr where
  | domainNotFound
  | domainAlreadyExists
  | nodeNotFound
  | nodeAlreadyExists
  | nodeNotInDomain
deriving DecidableEq, Repr

/-- `Domain.AddNode` from types.go: append the ID unless already present. -/
def Domain.AddNode (d : Domain) (nodeID : String) : Domain :=
  if nodeID ∈ d.NodeIDs then d
  else { d with NodeIDs := d.NodeIDs ++ [nodeID] }

/-- `Domain.RemoveNode` from types.go: remove the first occurrence of the
ID; when it is removed and was the head, clear `HeadNodeID`. -/
def Domain.RemoveNode (d : Domain) (nodeID : String) : Domain :=
  if nodeID ∈ d.NodeIDs then
    { d with
      NodeIDs := d.NodeIDs.erase nodeID
      HeadNodeID := if d.HeadNodeID = some nodeID then none else d.HeadNodeID }
  else d

/-- `Domain.SetHeadNode` from types.go: requires membership in `NodeIDs`,
then overwrites `HeadNodeID` unconditionally. -/
def Domain.SetHeadNode (d : Domain) (nodeID : String) : Except RegistryErr Domain :=
  if nodeID ∈ d.NodeIDs then .ok { d with HeadNodeID := some nodeID }
  else .error .nodeNotInDomain

/-! ### Registry store (`internal/domain/registry/manager.go`)

Every Go call of `time.Now()` is threaded as an explicit `now : Int`
argument.  An operation that returns an error before mutating anything is
embedded as `Except.error` (the caller keeps the unchanged manager). -/

/-- The `Manager` state: the two maps and the sweep thresholds
(`timeoutDuration`, `cleanupDuration`), in seconds. -/
structure Manager where
  domains : List (String × Domain)
  nodes : List (String × Node)
  timeoutDuration : Int
  cleanupDuration : Int
deriving DecidableEq, Repr

/-- `NewManager`: default 30 s timeout, cleanup = 2 × timeout. -/
def NewManager : Manager :=
  { domains := []
    nodes := []
    timeoutDuration := 30
    cleanupDuration := 30 * 2 }

/-- `Manager.GetDomain`. -/
def Manager.GetDomain (m : Manager) (domainID : String) : Except RegistryErr Domain :=
  match getk m.domains domainID with
  | none => .error .domainNotFound
  | some domain => .ok domain

/-- `Manager.GetAllDomains` (map iteration order = entry order of the
association list; Go map order is unspecified). -/
def Manager.GetAllDomains (m : Manager) : List Domain :=
  m.domains.map Prod.snd

/-- `Manager.AddDomain`. -/
def Manager.AddDomain (m : Manager) (domain : Domain) : Except RegistryErr Manager :=
  if (getk m.domains domain.ID).isSome then .error .domainAlreadyExists
  else .ok { m with domains := setk m.domains domain.ID domain }

/-- `Manager.RemoveDomain`: delete every node listed in the domain's
`NodeIDs`, then the domain itself. -/
def Manager.RemoveDomain (m : Manager) (domainID : String) : Except RegistryErr Manager :=
  match getk m.domains domainID with
  | none => .error .domainNotFound
  | some domain =>
    .ok { m with
          nodes := domain.NodeIDs.foldl delk m.nodes
          domains := delk m.domains domainID }

/-- `Manager.GetNode`. -/
def Manager.GetNode (m : Manager) (nodeID : String) : Except RegistryErr Node :=
  match getk m.nodes nodeID with
  | none => .error .nodeNotFound
  | some node => .ok node

/-- `Manager.GetNodesByDomain`: the members of `NodeIDs` that resolve in the
`nodes` map, in list order. -/
def Manager.GetNodesByDomain (m : Manager) (domainID : String) :
    Except RegistryErr (List Node) :=
  match getk m.domains domainID with
  | none => .error .domainNotFound
  | some domain => .ok (domain.NodeIDs.filterMap (getk m.nodes))

/-- `Manager.GetHeadNodes`: clones of all nodes with `IsHead`. -/
def Manager.GetHeadNodes (m : Manager) : List Node :=
  m.nodes.filterMap (fun p => if p.2.IsHead then some p.2.Clone else none)

/-- `Manager.GetNodeStatus`: absent nodes read as offline. -/
def Manager.GetNodeStatus (m : Manager) (nodeID : String) : NodeStatus :=
  match getk m.nodes nodeID with
  | none => .offline
  | some node => node.Status

/-- `Manager.GetNodeResourceTags`. -/
def Manager.GetNodeResourceTags (m : Manager) (nodeID : String) : Option ResourceTags :=
  match getk m.nodes nodeID with
  | none => none
  | some node => node.ResourceTags

/-- `updateDomainResourceTags` (and its identical-bodied `Unsafe` variant):
OR-reduce the tags of all members of `NodeIDs` that resolve in the given
`nodes` map, skipping nodes with nil tags; store the aggregate and stamp
`UpdatedAt = now`. -/
def Manager.updateDomainResourceTags (m : Manager) (domain : Domain) (now : Int) : Domain :=
  let aggregatedTags := domain.NodeIDs.foldl
    (fun acc nodeID =>
      match getk m.nodes nodeID with
      | none => acc
      | some node =>
        match node.ResourceTags with
        | none => acc
        | some t =>
          { CPU := acc.CPU || t.CPU
            GPU := acc.GPU || t.GPU
            Memory := acc.Memory || t.Memory
            Camera := acc.Camera || t.Camera })
    (⟨false, false, false, false⟩ : ResourceTags)
  { domain with ResourceTags := some aggregatedTags, UpdatedAt := now }

/-- `Manager.AddNode`.  The Go rollback branch (`SetHeadNode` failing) mutates
and then restores the maps; its net effect is the unchanged manager, which is
what `Except.error` denotes here. -/
def Manager.AddNode (m : Manager) (node : Node) (now : Int) : Except RegistryErr Manager :=
  if (getk m.nodes node.ID).isSome then .error .nodeAlreadyExists
  else
    match getk m.domains node.DomainID with
    | none => .error .domainNotFound
    | some domain =>
      let m1 : Manager := { m with nodes := setk m.nodes node.ID node }
      let domain1 := domain.AddNode node.ID
      if node.IsHead then
        match domain1.SetHeadNode node.ID with
        | .error e => .error e
        | .ok domain2 =>
          .ok { m1 with
                domains := setk m1.domains node.DomainID
                  (m1.updateDomainResourceTags domain2 now) }
      else
        .ok { m1 with
              domains := setk m1.domains node.DomainID
                (m1.updateDomainResourceTags domain1 now) }

/-- `Manager.UpdateNode`: apply the mutator, stamp `UpdatedAt`, then refresh
the owning domain's aggregated tags (the owner is read from the node's
post-mutation `DomainID`, as the Go code reads the mutated struct). -/
def Manager.UpdateNode (m : Manager) (nodeID : String) (updateFn : Node → Node)
    (now : Int) : Except RegistryErr Manager :=
  match getk m.nodes nodeID with
  | none => .error .nodeNotFound
  | some node =>
    let node1 : Node := { updateFn node with UpdatedAt := now }
    let m1 : Manager := { m with nodes := setk m.nodes nodeID node1 }
    match getk m1.domains node1.DomainID with
    | none => .ok m1
    | some domain =>
      .ok { m1 with
            domains := setk m1.domains node1.DomainID
              (m1.updateDomainResourceTags domain now) }

/-- `Manager.RemoveNode`: drop the ID from the owning domain (clearing a
matching head), refresh that domain's tags (the node is still in the `nodes`
map at that point, but no longer in `NodeIDs`), then delete the node. -/
def Manager.RemoveNode (m : Manager) (nodeID : String) (now : Int) :
    Except RegistryErr Manager :=
  match getk m.nodes nodeID with
  | none => .error .nodeNotFound
  | some node =>
    let m1 : Manager :=
      match getk m.domains node.DomainID with
      | none => m
      | some domain =>
        { m with
          domains := setk m.domains node.DomainID
            (m.updateDomainResourceTags (domain.RemoveNode nodeID) now) }
    .ok { m1 with nodes := delk m1.nodes nodeID }

/-- `Manager.UpdateNodeStatus`. -/
def Manager.UpdateNodeStatus (m : Manager) (nodeID : String) (status : NodeStatus)
    (now : Int) : Except RegistryErr Manager :=
  m.UpdateNode nodeID (fun node => { node with Status := status, LastSeen := now }) now

/-- `removeNodeUnsafe`: like `RemoveNode`; the sweeper ignores its
`ErrNodeNotFound` (absent node leaves the state unchanged). -/
def Manager.removeNodeUnsafe (m : Manager) (nodeID : String) (now : Int) : Manager :=
  match getk m.nodes nodeID with
  | none => m
  | some node =>
    let m1 : Manager :=
      match getk m.domains node.DomainID with
      | none => m
      | some domain =>
        { m with
          domains := setk m.domains node.DomainID
            (m.updateDomainResourceTags (domain.RemoveNode nodeID) now) }
    { m1 with nodes := delk m1.nodes nodeID }

/-- The shared mutation shape of `UpdateNode` and the sweeper's
online-timeout branch: replace the node stored under `nodeID` by `node1`,
then refresh the owning domain's aggregated tags (`node1` never changes the
`DomainID` of the node it replaces, so looking the owner up under
`node1.DomainID` reads the same key the Go code reads). -/
def replaceRefresh (m : Manager) (nodeID : String) (node1 : Node) (now : Int) : Manager :=
  match getk m.domains node1.DomainID with
  | none => { m with nodes := setk m.nodes nodeID node1 }
  | some domain =>
    { m with
      nodes := setk m.nodes nodeID node1
      domains := setk m.domains node1.DomainID
        (Manager.updateDomainResourceTags
          { m with nodes := setk m.nodes nodeID node1 } domain now) }

/-- One iteration of the `checkNodeTimeouts` loop body for the node under
`nodeID`.  Go iterates `range m.nodes`, reading each node through its stored
pointer; since earlier iterations only ever rewrite *other* keys, reading the
current map at `nodeID` is equivalent. -/
def sweepVisit (now : Int) (st : Manager × List String) (nodeID : String) :
    Manager × List String :=
  match getk st.1.nodes nodeID with
  | none => st
  | some node =>
    if (node.Status = .offline ∨ node.Status = .error) ∧
        now - node.LastSeen > st.1.cleanupDuration then
      (st.1, st.2 ++ [nodeID])
    else if node.Status = .online ∧ now - node.LastSeen > st.1.timeoutDuration then
      (replaceRefresh st.1 nodeID { node with Status := .offline, UpdatedAt := now } now,
        st.2)
    else st

/-- `checkNodeTimeouts`: one sweeper tick.  Pass one marks stale online nodes
offline (refreshing their domains' tags) and collects eviction candidates
(`nodesToRemove`, the second component); pass two evicts them via
`removeNodeUnsafe`. -/
def Manager.checkNodeTimeouts (m : Manager) (now : Int) : Manager :=
  ((keysOf m.nodes).foldl (sweepVisit now) (m, [])).2.foldl
    (fun mm nodeID => mm.removeNodeUnsafe nodeID now)
    ((keysOf m.nodes).foldl (sweepVisit now) (m, [])).1

/-! ### Heartbeat intake RPC (`transport/rpc/registry` server, part_001) -/

/-- The proto `NodeStatus` enum (including the zero value). -/
inductive ProtoNodeStatus where
  | unspecified
  | online
  | offline
  | error
deriving DecidableEq, Repr

/-- `convertProtoNodeStatus`: unknown values default to offline. -/
def convertProtoNodeStatus (status : ProtoNodeStatus) : NodeStatus :=
  match status with
  | .online => .online
  | .offline => .offline
  | .error => .error
  | _ => .offline

/-- The proto `ResourceTags` message. -/
structure ProtoResourceTags where
  Cpu : Bool
  Gpu : Bool
  Memory : Bool
  Camera : Bool
deriving DecidableEq, Repr

/-- `convertProtoResourceTags`: nil becomes the empty tag vector. -/
def convertProtoResourceTags (tags : Option ProtoResourceTags) : ResourceTags :=
  match tags with
  | none => NewEmptyResourceTags
  | some t => ⟨t.Cpu, t.Gpu, t.Memory, t.Camera⟩

/-- The error kinds of the intake RPC server (Go wraps them in
`fmt.Errorf` strings; only the kind matters for the contracts). -/
inductive ServerErr where
  | requiredField (field : String)
  | domainNotFound
  | addNodeFailed (e : RegistryErr)
  | updateNodeFailed (e : RegistryErr)
deriving DecidableEq, Repr

structure RegisterNodeRequest where
  DomainId : String
  NodeId : String
  NodeName : String
deriving DecidableEq, Repr

structure RegisterNodeResponse where
  DomainName : String
  DomainDescription : String
deriving DecidableEq, Repr

/-- `Server.RegisterNode` from part_001. -/
def Server.RegisterNode (m : Manager) (req : RegisterNodeRequest) (now : Int) :
    Except ServerErr (Manager × RegisterNodeResponse) :=
  if req.DomainId = "" then .error (.requiredField "domain_id")
  else if req.NodeId = "" then .error (.requiredField "node_id")
  else if req.NodeName = "" then .error (.requiredField "node_name")
  else
    match m.GetDomain req.DomainId with
    | .error _ => .error .domainNotFound
    | .ok domain =>
      let node : Node :=
        { ID := req.NodeId
          DomainID := req.DomainId
          Name := req.NodeName
          Address := ""
          IsHead := false
          Status := .offline
          ResourceTags := some NewEmptyResourceTags
          ResourceCapacity := none
          CreatedAt := now
          UpdatedAt := now
          LastSeen := now }
      match m.AddNode node now with
      | .error e => .error (.addNodeFailed e)
      | .ok m1 => .ok (m1, ⟨domain.Name, domain.Description⟩)

structure HealthCheckRequest where
  NodeId : String
  DomainId : String
  Address : String
  IsHead : Bool
  Status : ProtoNodeStatus
  ResourceTags : Option ProtoResourceTags
deriving DecidableEq, Repr

structure HealthCheckResponse where
  ServerTimestamp : Int
  RecommendedIntervalSeconds : Int
  RequireReregister : Bool
  StatusCode : String
  Message : String
deriving DecidableEq, Repr

/-- The mutator `HealthCheck` passes to `UpdateNode` for an existing node. -/
def healthCheckUpdateFn (req : HealthCheckRequest) (now : Int) (n : Node) : Node :=
  let n1 : Node :=
    { n with Status := convertProtoNodeStatus req.Status, LastSeen := now, UpdatedAt := now }
  let n2 : Node := if req.Address ≠ "" then { n1 with Address := req.Address } else n1
  let n3 : Node :=
    match req.ResourceTags with
    | some _ => { n2 with ResourceTags := some (convertProtoResourceTags req.ResourceTags) }
    | none => n2
  if req.IsHead then { n3 with IsHead := true } else n3

/-- `Server.HealthCheck` from part_001: auto-register an unknown node, or
update an existing one (the trailing `UpdateNodeStatus` call's error is only
logged). -/
def Server.HealthCheck (m : Manager) (req : HealthCheckRequest) (now : Int) :
    Except ServerErr (Manager × HealthCheckResponse) :=
  if req.NodeId = "" then .error (.requiredField "node_id")
  else if req.DomainId = "" then .error (.requiredField "domain_id")
  else
    let resp : HealthCheckResponse :=
      ⟨now, 30, false, "success", "Health check processed successfully"⟩
    match m.GetNode req.NodeId with
    | .error _ =>
      match m.GetDomain req.DomainId with
      | .error _ => .error .domainNotFound
      | .ok _ =>
        let node : Node :=
          { ID := req.NodeId
            DomainID := req.DomainId
            Name := req.NodeId
            Address := req.Address
            IsHead := req.IsHead
            Status := convertProtoNodeStatus req.Status
            ResourceTags := some (convertProtoResourceTags req.ResourceTags)
            ResourceCapacity := none
            CreatedAt := now
            UpdatedAt := now
            LastSeen := now }
        match m.AddNode node now with
        | .error e => .error (.addNodeFailed e)
        | .ok m1 => .ok (m1, resp)
    | .ok _ =>
      match m.UpdateNode req.NodeId (healthCheckUpdateFn req now) now with
      | .error e => .error (.updateNodeFailed e)
      | .ok m1 =>
        match m1.UpdateNodeStatus req.NodeId (convertProtoNodeStatus req.Status) now with
        | .ok m2 => .ok (m2, resp)
        | .error _ => .ok (m1, resp)

/-! ### Registry service (`GetDomainStats` from part_007) -/

structure DomainStats where
  TotalNodes : Nat
  OnlineNodes : Nat
  OfflineNodes : Nat
  ErrorNodes : Nat
deriving DecidableEq, Repr

/-- One iteration of the `GetDomainStats` loop: skip `NodeIDs` entries that
no longer resolve, then bucket the resolved node by its observed status. -/
def statsStep (m : Manager) (stats : DomainStats) (nodeID : String) : DomainStats :=
  match m.GetNode nodeID with
  | .error _ => stats
  | .ok _ =>
    let stats1 : DomainStats := { stats with TotalNodes := stats.TotalNodes + 1 }
    match m.GetNodeStatus nodeID with
    | .online => { stats1 with OnlineNodes := stats1.OnlineNodes + 1 }
    | .offline => { stats1 with OfflineNodes := stats1.OfflineNodes + 1 }
    | .error => { stats1 with ErrorNodes := stats1.ErrorNodes + 1 }

/-- `Service.GetDomainStats` from part_007: count only `NodeIDs` entries that
still resolve; bucket each resolved node by its status.  (Go's `default`
branch for unknown status strings has no counterpart: the embedded
`NodeStatus` has exactly the three declared constants.) -/
def Service.GetDomainStats (m : Manager) (domainID : String) :
    Except RegistryErr DomainStats :=
  match m.GetDomain domainID with
  | .error e => .error e
  | .ok domain => .ok (domain.NodeIDs.foldl (statsStep m) ⟨0, 0, 0, 0⟩)

/-! ### Scheduler (`DeployComponent` from part_010)

The proto `resource.Info` and `scheduler` messages are not among the
provided sources; their fields are modelled from the spec (§6: integer CPU
millicores, GPU count, memory bytes, a string list of required tags) exactly
as part_010 reads them.  The two `rand.Intn` results are threaded as `i`/`j`,
and the downstream dial+invoke is a `forward` parameter. -/

/-- Modelled from the spec: the `resourcepb.Info` resource request. -/
structure ResourceInfo where
  Cpu : Int
  Gpu : Int
  Memory : Int
  Tags : List String
deriving DecidableEq, Repr

/-- Modelled from the spec: the deployment request wrapper with its nullable
`ResourceRequest`. -/
structure DeployComponentRequest where
  ResourceRequest : Option ResourceInfo
deriving DecidableEq, Repr

/-- Modelled from the spec: the structured scheduling response. -/
structure DeployComponentResponse where
  Success : Bool
  Error : String
deriving DecidableEq, Repr

/-- `failureResponse` from part_010. -/
def failureResponse (msg : String) : DeployComponentResponse :=
  { Success := false, Error := msg }

/-- `hasSufficientResources` from part_010 (`req` is non-nil at the call
site, so it is taken by value). -/
def hasSufficientResources (capacity : Option ResourceCapacity) (req : ResourceInfo) :
    Bool :=
  match capacity with
  | none => false
  | some c =>
    match c.Available with
    | none => false
    | some available =>
      if available.CPU < req.Cpu then false
      else if available.Memory < req.Memory then false
      else if available.GPU < req.Gpu then false
      else true

/-- `strings.ToLower`, embedded as per-character lowercasing (the same
semantics as `String.toLower`; spelled out so concrete inputs evaluate). -/
def toLowerStr (s : String) : String :=
  ⟨s.data.map Char.toLower⟩

/-- `nodeHasRequiredTags` from part_010: every required tag, lowercased, must
name a true capability; an unknown tag fails. -/
def nodeHasRequiredTags (nodeTags : Option ResourceTags) (required : List String) :
    Bool :=
  if required.isEmpty then true
  else
    match nodeTags with
    | none => false
    | some tags =>
      required.all (fun tag =>
        let t := toLowerStr tag
        if t = "cpu" then tags.CPU
        else if t = "gpu" then tags.GPU
        else if t = "memory" then tags.Memory
        else if t = "camera" then tags.Camera
        else false)

/-- The per-node filter inside `selectRandomNode`'s loop. -/
def eligibleNode (resourceReq : ResourceInfo) (node : Node) : Bool :=
  if node.Status ≠ .online then false
  else if node.Address = "" then false
  else if resourceReq.Tags.length > 0 ∧ ¬nodeHasRequiredTags node.ResourceTags resourceReq.Tags
    then false
  else if ¬hasSufficientResources node.ResourceCapacity resourceReq then false
  else true

/-- The `domainNodes` grouping of part_010. -/
structure DomainNodes where
  domainID : String
  nodes : List Node
deriving DecidableEq, Repr

/-- The candidate construction of `selectRandomNode`: per domain, the clones
of its eligible nodes (Go binds them to a local `eligible`, inlined here);
domains with none are discarded. -/
def selectCandidates (m : Manager) (resourceReq : ResourceInfo) : List DomainNodes :=
  m.GetAllDomains.foldl
    (fun cands domain =>
      match m.GetNodesByDomain domain.ID with
      | .error _ => cands
      | .ok nodes =>
        if ((nodes.filter (eligibleNode resourceReq)).map Node.Clone).length > 0 then
          cands ++ [⟨domain.ID, (nodes.filter (eligibleNode resourceReq)).map Node.Clone⟩]
        else cands)
    []

/-- Fallback value for ill-indexed draws (`rand.Intn` never produces one). -/
def defaultNode : Node :=
  ⟨"", "", "", "", false, .offline, none, none, 0, 0, 0⟩

/-- `selectRandomNode` from part_010; `i` and `j` are the two `rand.Intn`
results (theorems constrain them below their bounds). -/
def selectRandomNode (m : Manager) (resourceReq : ResourceInfo) (i j : Nat) :
    Except String Node :=
  let candidates := selectCandidates m resourceReq
  if candidates.length = 0 then .error "no domain has nodes with sufficient capacity"
  else
    let selectedDomain := candidates.getD i ⟨"", []⟩
    .ok (selectedDomain.nodes.getD j defaultNode)

/-- `DeployComponent` from part_010.  `forward` stands for the
dial-and-invoke step; the second component mirrors Go's error return value
(every source return site passes `nil` there). -/
def DeployComponent (m : Manager) (req : Option DeployComponentRequest) (i j : Nat)
    (forward : Node → Except String DeployComponentResponse) :
    DeployComponentResponse × Option String :=
  match req with
  | none => (failureResponse "request is required", none)
  | some r =>
    match r.ResourceRequest with
    | none => (failureResponse "resource_request is required", none)
    | some resourceReq =>
      match selectRandomNode m resourceReq i j with
      | .error e => (failureResponse e, none)
      | .ok targetNode =>
        match forward targetNode with
        | .error e => (failureResponse ("node dispatch failed: " ++ e), none)
        | .ok resp => (resp, none)

/-! ### Reachable states

The store is driven through the intake RPCs, the admin facade and the
sweeper.  `Op` is that alphabet; `applyOp` applies one operation, keeping
the old state when the operation reports an error (every error return in the
source happens before any mutation, or — for the dead `AddNode` rollback
branch — restores the maps). -/

/-- The domain object as built by the two `AddDomain` call sites
(`CreateDomain` and `LoadDomains` of part_007): empty membership, no head,
all-false aggregated tags. -/
def mkStoredDomain (id name description : String) (t : Int) : Domain :=
  { ID := id
    Name := name
    Description := description
    ResourceTags := some ⟨false, false, false, false⟩
    HeadNodeID := none
    NodeIDs := []
    CreatedAt := t
    UpdatedAt := t }

/-- One externally-triggered store mutation. -/
inductive Op where
  | addDomain (id name description : String) (t : Int)
  | addNode (n : Node) (now : Int)
  | registerNode (req : RegisterNodeRequest) (now : Int)
  | healthCheck (req : HealthCheckRequest) (now : Int)
  | updateNodeStatus (id : String) (status : NodeStatus) (now : Int)
  | removeNode (id : String) (now : Int)
  | removeDomain (id : String)
  | sweep (now : Int)
deriving Repr

/-- Keep the previous state when an operation errors. -/
def orKeep {ε : Type} (m : Manager) : Except ε Manager → Manager
  | .ok m1 => m1
  | .error _ => m

def applyOp (m : Manager) (op : Op) : Manager :=
  match op with
  | .addDomain id name description t => orKeep m (m.AddDomain (mkStoredDomain id name description t))
  | .addNode n now => orKeep m (m.AddNode n now)
  | .registerNode req now =>
    match Server.RegisterNode m req now with
    | .ok (m1, _) => m1
    | .error _ => m
  | .healthCheck req now =>
    match Server.HealthCheck m req now with
    | .ok (m1, _) => m1
    | .error _ => m
  | .updateNodeStatus id status now => orKeep m (m.UpdateNodeStatus id status now)
  | .removeNode id now => orKeep m (m.RemoveNode id now)
  | .removeDomain id => orKeep m (m.RemoveDomain id)
  | .sweep now => m.checkNodeTimeouts now

def run (ops : List Op) : Manager :=
  ops.foldl applyOp NewManager

/-- A state the store can be in after any sequence of operations. -/
def Reachable (m : Manager) : Prop :=
  ∃ ops : List Op, run ops = m

/-! ### Tag aggregation, two ways -/

/-- One iteration of the `updateDomainResourceTags` loop. -/
def aggStep (nodes : List (String × Node)) (acc : ResourceTags) (nodeID : String) :
    ResourceTags :=
  match getk nodes nodeID with
  | none => acc
  | some node =>
    match node.ResourceTags with
    | none => acc
    | some t =>
      { CPU := acc.CPU || t.CPU
        GPU := acc.GPU || t.GPU
        Memory := acc.Memory || t.Memory
        Camera := acc.Camera || t.Camera }

/-- The loop body of `updateDomainResourceTags`, extracted: OR-fold the tags
of the resolving members. -/
def aggTags (nodes : List (String × Node)) (ids : List String) : ResourceTags :=
  ids.foldl (aggStep nodes) (⟨false, false, false, false⟩ : ResourceTags)

theorem updateDomainResourceTags_eq (m : Manager) (domain : Domain) (now : Int) :
    m.updateDomainResourceTags domain now =
      { domain with ResourceTags := some (aggTags m.nodes domain.NodeIDs), UpdatedAt := now } :=
  rfl

/-- What a member contributes to the aggregation: its tags when it resolves
and has them, nothing otherwise. -/
def tagView (nodes : List (String × Node)) (id : String) : Option ResourceTags :=
  (getk nodes id).bind Node.ResourceTags

theorem aggStep_congr {nodes nodes' : List (String × Node)} {id : String}
    (h : tagView nodes id = tagView nodes' id) (acc : ResourceTags) :
    aggStep nodes acc id = aggStep nodes' acc id := by
  unfold tagView at h
  unfold aggStep
  cases h1 : getk nodes id with
  | none =>
    rw [h1] at h
    cases h2 : getk nodes' id with
    | none => rfl
    | some n' =>
      rw [h2] at h
      simp [Option.bind] at h
      simp [← h]
  | some n =>
    rw [h1] at h
    cases h2 : getk nodes' id with
    | none =>
      rw [h2] at h
      simp [Option.bind] at h
      simp [h]
    | some n' =>
      rw [h2] at h
      simp [Option.bind] at h
      simp [h]

theorem foldl_aggStep_congr {nodes nodes' : List (String × Node)} {ids : List String}
    (h : ∀ id ∈ ids, tagView nodes id = tagView nodes' id) :
    ∀ acc : ResourceTags, ids.foldl (aggStep nodes) acc = ids.foldl (aggStep nodes') acc := by
  induction ids with
  | nil => intro acc; rfl
  | cons id rest ih =>
    intro acc
    simp only [List.foldl_cons]
    rw [aggStep_congr (h id (by simp)) acc]
    exact ih (fun x hx => h x (by simp [hx])) _

/-- The aggregation only reads each member's `tagView`. -/
theorem aggTags_congr {nodes nodes' : List (String × Node)} {ids : List String}
    (h : ∀ id ∈ ids, tagView nodes id = tagView nodes' id) :
    aggTags nodes ids = aggTags nodes' ids :=
  foldl_aggStep_congr h _

/-- The OR-reduction exactly as the claims state it: the field-wise OR over
the members that currently resolve, a nil tag vector contributing all-false. -/
def orReduction (nodes : List (String × Node)) (ids : List String) : ResourceTags :=
  { CPU := ids.any fun id => ((tagView nodes id).getD NewEmptyResourceTags).CPU
    GPU := ids.any fun id => ((tagView nodes id).getD NewEmptyResourceTags).GPU
    Memory := ids.any fun id => ((tagView nodes id).getD NewEmptyResourceTags).Memory
    Camera := ids.any fun id => ((tagView nodes id).getD NewEmptyResourceTags).Camera }

theorem foldl_aggStep_any (nodes : List (String × Node)) (ids : List String) :
    ∀ acc : ResourceTags,
      ids.foldl (aggStep nodes) acc =
      { CPU := acc.CPU || (ids.any fun id => ((tagView nodes id).getD NewEmptyResourceTags).CPU)
        GPU := acc.GPU || (ids.any fun id => ((tagView nodes id).getD NewEmptyResourceTags).GPU)
        Memory :=
          acc.Memory || (ids.any fun id => ((tagView nodes id).getD NewEmptyResourceTags).Memory)
        Camera :=
          acc.Camera ||
            (ids.any fun id => ((tagView nodes id).getD NewEmptyResourceTags).Camera) } := by
  induction ids with
  | nil => intro acc; simp
  | cons id rest ih =>
    intro acc
    simp only [List.foldl_cons, List.any_cons]
    rw [ih]
    cases h1 : getk nodes id with
    | none => simp [aggStep, tagView, h1, Option.bind, NewEmptyResourceTags, Bool.or_assoc]
    | some n =>
      cases h2 : n.ResourceTags with
      | none => simp [aggStep, tagView, h1, h2, Option.bind, NewEmptyResourceTags, Bool.or_assoc]
      | some t => simp [aggStep, tagView, h1, h2, Option.bind, Bool.or_assoc]

theorem aggTags_eq_orReduction (nodes : List (String × Node)) (ids : List String) :
    aggTags nodes ids = orReduction nodes ids := by
  rw [aggTags, orReduction, foldl_aggStep_any nodes ids ⟨false, false, false, false⟩]
  simp

/-! ### The structural invariant of reachable stores -/

/-- Well-formedness of a `Manager` snapshot: key/value agreement in both
maps, dual-sided membership between `nodes` and `NodeIDs`, head hygiene, and
the aggregated-tags equation. -/
structure WF (m : Manager) : Prop where
  domKeysNodup : (keysOf m.domains).Nodup
  nodeKeysNodup : (keysOf m.nodes).Nodup
  domKey : ∀ {k d}, getk m.domains k = some d → d.ID = k
  nodeKey : ∀ {k n}, getk m.nodes k = some n → n.ID = k
  ownership : ∀ {k d}, getk m.domains k = some d → ∀ {id}, id ∈ d.NodeIDs →
    ∃ n, getk m.nodes id = some n ∧ n.DomainID = k
  closure : ∀ {k n}, getk m.nodes k = some n →
    ∃ d, getk m.domains n.DomainID = some d ∧ k ∈ d.NodeIDs
  memNodup : ∀ {k d}, getk m.domains k = some d → d.NodeIDs.Nodup
  headMem : ∀ {k d}, getk m.domains k = some d → ∀ {h}, d.HeadNodeID = some h →
    h ∈ d.NodeIDs ∧ ∃ n, getk m.nodes h = some n ∧ n.IsHead = true
  tagsOK : ∀ {k d}, getk m.domains k = some d →
    d.ResourceTags = some (aggTags m.nodes d.NodeIDs)

theorem wf_newManager : WF NewManager where
  domKeysNodup := by simp [NewManager, keysOf]
  nodeKeysNodup := by simp [NewManager, keysOf]
  domKey := by intro k d h; simp [NewManager] at h
  nodeKey := by intro k n h; simp [NewManager] at h
  ownership := by intro k d h; simp [NewManager] at h
  closure := by intro k n h; simp [NewManager] at h
  memNodup := by intro k d h; simp [NewManager] at h
  headMem := by intro k d h; simp [NewManager] at h
  tagsOK := by intro k d h; simp [NewManager] at h

/-! ### Small facts about the `Domain` methods -/

theorem Domain.addNode_mem_self (d : Domain) (id : String) :
    id ∈ (d.AddNode id).NodeIDs := by
  unfold Domain.AddNode
  by_cases h : id ∈ d.NodeIDs <;> simp [h]

theorem Domain.addNode_of_not_mem {d : Domain} {id : String} (h : id ∉ d.NodeIDs) :
    d.AddNode id = { d with NodeIDs := d.NodeIDs ++ [id] } := by
  simp [Domain.AddNode, h]

theorem Domain.addNode_of_mem {d : Domain} {id : String} (h : id ∈ d.NodeIDs) :
    d.AddNode id = d := by
  simp [Domain.AddNode, h]

theorem Domain.setHeadNode_of_mem {d : Domain} {id : String} (h : id ∈ d.NodeIDs) :
    d.SetHeadNode id = .ok { d with HeadNodeID := some id } := by
  simp [Domain.SetHeadNode, h]

/-! ### `AddDomain` preservation -/

theorem addDomain_ok_inv {m : Manager} {d : Domain} {m' : Manager}
    (h : m.AddDomain d = .ok m') :
    getk m.domains d.ID = none ∧ m' = { m with domains := setk m.domains d.ID d } := by
  unfold Manager.AddDomain at h
  cases hd : getk m.domains d.ID with
  | some old => rw [hd] at h; simp at h
  | none =>
    rw [hd] at h
    simp at h
    exact ⟨rfl, h.symm⟩

theorem wf_addDomain {m : Manager} {d : Domain} {m' : Manager}
    (hwf : WF m)
    (hids : d.NodeIDs = []) (hhead : d.HeadNodeID = none)
    (htags : d.ResourceTags = some ⟨false, false, false, false⟩)
    (h : m.AddDomain d = .ok m') : WF m' := by
  obtain ⟨hfresh, rfl⟩ := addDomain_ok_inv h
  constructor
  · exact nodup_keys_setk d hwf.domKeysNodup
  · exact hwf.nodeKeysNodup
  · intro k dd hd
    by_cases hk : k = d.ID
    · subst hk
      rw [getk_setk_self] at hd
      cases hd
      rfl
    · rw [getk_setk_ne _ _ hk] at hd
      exact hwf.domKey hd
  · intro k n hn
    exact hwf.nodeKey hn
  · intro k dd hd id hid
    by_cases hk : k = d.ID
    · subst hk
      rw [getk_setk_self] at hd
      cases hd
      rw [hids] at hid
      simp at hid
    · rw [getk_setk_ne _ _ hk] at hd
      exact hwf.ownership hd hid
  · intro k n hn
    obtain ⟨d0, hd0, hmem⟩ := hwf.closure hn
    by_cases hk : n.DomainID = d.ID
    · rw [hk] at hd0
      rw [hfresh] at hd0
      cases hd0
    · rw [show getk (setk m.domains d.ID d) n.DomainID = getk m.domains n.DomainID from
        getk_setk_ne _ _ hk]
      exact ⟨d0, hd0, hmem⟩
  · intro k dd hd
    by_cases hk : k = d.ID
    · subst hk
      rw [getk_setk_self] at hd
      cases hd
      rw [hids]
      exact List.nodup_nil
    · rw [getk_setk_ne _ _ hk] at hd
      exact hwf.memNodup hd
  · intro k dd hd hh hhead2
    by_cases hk : k = d.ID
    · subst hk
      rw [getk_setk_self] at hd
      cases hd
      rw [hhead] at hhead2
      cases hhead2
    · rw [getk_setk_ne _ _ hk] at hd
      exact hwf.headMem hd hhead2
  · intro k dd hd
    by_cases hk : k = d.ID
    · subst hk
      rw [getk_setk_self] at hd
      cases hd
      rw [hids, htags]
      rfl
    · rw [getk_setk_ne _ _ hk] at hd
      exact hwf.tagsOK hd

/-! ### `AddNode` characterization and preservation -/

/-- The post-state of a successful `AddNode`. -/
def addNodeResult (m : Manager) (node : Node) (domain : Domain) (now : Int) : Manager :=
  let m1 : Manager := { m with nodes := setk m.nodes node.ID node }
  let domain1 := domain.AddNode node.ID
  let domain2 := if node.IsHead then { domain1 with HeadNodeID := some node.ID } else domain1
  { m1 with
    domains := setk m1.domains node.DomainID (m1.updateDomainResourceTags domain2 now) }

theorem addNode_err_exists {m : Manager} {node : Node} {now : Int}
    (h : (getk m.nodes node.ID).isSome) :
    m.AddNode node now = .error .nodeAlreadyExists := by
  unfold Manager.AddNode
  simp [h]

theorem addNode_err_domain {m : Manager} {node : Node} {now : Int}
    (hfresh : getk m.nodes node.ID = none)
    (hdom : getk m.domains node.DomainID = none) :
    m.AddNode node now = .error .domainNotFound := by
  unfold Manager.AddNode
  rw [hfresh, hdom]
  simp

theorem addNode_ok {m : Manager} {node : Node} {domain : Domain} {now : Int}
    (hfresh : getk m.nodes node.ID = none)
    (hdom : getk m.domains node.DomainID = some domain) :
    m.AddNode node now = .ok (addNodeResult m node domain now) := by
  unfold Manager.AddNode addNodeResult
  rw [hfresh, hdom]
  by_cases hh : node.IsHead
  · simp [hh, Domain.setHeadNode_of_mem (Domain.addNode_mem_self domain node.ID)]
  · simp [hh]

theorem addNode_ok_inv {m : Manager} {node : Node} {now : Int} {m' : Manager}
    (h : m.AddNode node now = .ok m') :
    getk m.nodes node.ID = none ∧
      ∃ domain, getk m.domains node.DomainID = some domain ∧
        m' = addNodeResult m node domain now := by
  cases hfresh : getk m.nodes node.ID with
  | some n =>
    rw [addNode_err_exists (by simp [hfresh])] at h
    cases h
  | none =>
    cases hdom : getk m.domains node.DomainID with
    | none =>
      rw [addNode_err_domain hfresh hdom] at h
      cases h
    | some domain =>
      rw [addNode_ok hfresh hdom] at h
      cases h
      exact ⟨rfl, domain, rfl, rfl⟩

theorem tagView_setk_ne (nodes : List (String × Node)) (k : String) (v : Node)
    {x : String} (h : x ≠ k) : tagView (setk nodes k v) x = tagView nodes x := by
  simp [tagView, getk_setk_ne _ _ h]

theorem tagView_delk_ne (nodes : List (String × Node)) (k : String)
    {x : String} (h : x ≠ k) : tagView (delk nodes k) x = tagView nodes x := by
  simp [tagView, getk_delk_ne _ h]

/-- Flattened form of `addNodeResult`. -/
theorem addNodeResult_eq (m : Manager) (node : Node) (domain : Domain) (now : Int) :
    addNodeResult m node domain now =
      { m with
        nodes := setk m.nodes node.ID node
        domains := setk m.domains node.DomainID
          { ID := domain.ID
            Name := domain.Name
            Description := domain.Description
            ResourceTags := some
              (aggTags (setk m.nodes node.ID node) (domain.AddNode node.ID).NodeIDs)
            HeadNodeID := if node.IsHead then some node.ID else domain.HeadNodeID
            NodeIDs := (domain.AddNode node.ID).NodeIDs
            CreatedAt := domain.CreatedAt
            UpdatedAt := now } } := by
  have hfields : ∀ d : Domain, ∀ id : String,
      (d.AddNode id).ID = d.ID ∧ (d.AddNode id).Name = d.Name ∧
      (d.AddNode id).Description = d.Description ∧
      (d.AddNode id).ResourceTags = d.ResourceTags ∧
      (d.AddNode id).HeadNodeID = d.HeadNodeID ∧
      (d.AddNode id).CreatedAt = d.CreatedAt := by
    intro d id
    unfold Domain.AddNode
    by_cases h : id ∈ d.NodeIDs <;> simp [h]
  obtain ⟨h1, h2, h3, h4, h5, h6⟩ := hfields domain node.ID
  by_cases hh : node.IsHead <;>
    simp [addNodeResult, updateDomainResourceTags_eq, hh, h1, h2, h3, h4, h5, h6]

theorem wf_addNode {m : Manager} {node : Node} {now : Int} {m' : Manager}
    (hwf : WF m) (h : m.AddNode node now = .ok m') : WF m' := by
  obtain ⟨hfresh, domain, hdom, rfl⟩ := addNode_ok_inv h
  have hnotmem : node.ID ∉ domain.NodeIDs := by
    intro hmem
    obtain ⟨n, hn, _⟩ := hwf.ownership hdom hmem
    rw [hfresh] at hn
    cases hn
  have hadd : (domain.AddNode node.ID).NodeIDs = domain.NodeIDs ++ [node.ID] := by
    rw [Domain.addNode_of_not_mem hnotmem]
  have hDid : domain.ID = node.DomainID := hwf.domKey hdom
  have hresolve_ne : ∀ {x : String} {n : Node}, getk m.nodes x = some n → x ≠ node.ID := by
    intro x n hx heq
    rw [heq, hfresh] at hx
    cases hx
  rw [addNodeResult_eq, hadd]
  constructor
  · exact nodup_keys_setk _ hwf.domKeysNodup
  · exact nodup_keys_setk _ hwf.nodeKeysNodup
  · intro k dd hd
    by_cases hk : k = node.DomainID
    · subst hk
      rw [getk_setk_self] at hd
      cases hd
      exact hDid
    · rw [getk_setk_ne _ _ hk] at hd
      exact hwf.domKey hd
  · intro k n hn
    by_cases hk : k = node.ID
    · subst hk
      rw [getk_setk_self] at hn
      cases hn
      rfl
    · rw [getk_setk_ne _ _ hk] at hn
      exact hwf.nodeKey hn
  · intro k dd hd id hid
    by_cases hk : k = node.DomainID
    · subst hk
      rw [getk_setk_self] at hd
      cases hd
      simp only at hid
      rcases List.mem_append.mp hid with hid | hid
      · obtain ⟨n, hn, hDomEq⟩ := hwf.ownership hdom hid
        exact ⟨n, by rw [getk_setk_ne _ _ (hresolve_ne hn)]; exact hn, hDomEq⟩
      · simp at hid
        subst hid
        exact ⟨node, getk_setk_self _ _ _, rfl⟩
    · rw [getk_setk_ne _ _ hk] at hd
      obtain ⟨n, hn, hDomEq⟩ := hwf.ownership hd hid
      exact ⟨n, by rw [getk_setk_ne _ _ (hresolve_ne hn)]; exact hn, hDomEq⟩
  · intro k n hn
    by_cases hk : k = node.ID
    · subst hk
      rw [getk_setk_self] at hn
      cases hn
      refine ⟨_, getk_setk_self _ _ _, ?_⟩
      simp
    · rw [getk_setk_ne _ _ hk] at hn
      obtain ⟨d0, hd0, hmem⟩ := hwf.closure hn
      by_cases hk2 : n.DomainID = node.DomainID
      · rw [hk2] at hd0
        rw [hdom] at hd0
        cases hd0
        rw [hk2, getk_setk_self]
        exact ⟨_, rfl, by simp [hmem]⟩
      · rw [show getk (setk m.domains node.DomainID _) n.DomainID = getk m.domains n.DomainID
          from getk_setk_ne _ _ hk2]
        exact ⟨d0, hd0, hmem⟩
  · intro k dd hd
    by_cases hk : k = node.DomainID
    · subst hk
      rw [getk_setk_self] at hd
      cases hd
      simp only
      refine (hwf.memNodup hdom).append (by simp) ?_
      intro a ha hb
      simp at hb
      subst hb
      exact hnotmem ha
    · rw [getk_setk_ne _ _ hk] at hd
      exact hwf.memNodup hd
  · intro k dd hd hh hhead
    by_cases hk : k = node.DomainID
    · subst hk
      rw [getk_setk_self] at hd
      cases hd
      simp only at hhead ⊢
      by_cases hish : node.IsHead
      · rw [if_pos hish] at hhead
        cases hhead
        refine ⟨by simp, node, getk_setk_self _ _ _, hish⟩
      · rw [if_neg hish] at hhead
        obtain ⟨hmem, n, hn, hhd⟩ := hwf.headMem hdom hhead
        exact ⟨by simp [hmem], n, by rw [getk_setk_ne _ _ (hresolve_ne hn)]; exact hn, hhd⟩
    · rw [getk_setk_ne _ _ hk] at hd
      obtain ⟨hmem, n, hn, hhd⟩ := hwf.headMem hd hhead
      exact ⟨hmem, n, by rw [getk_setk_ne _ _ (hresolve_ne hn)]; exact hn, hhd⟩
  · intro k dd hd
    by_cases hk : k = node.DomainID
    · subst hk
      rw [getk_setk_self] at hd
      cases hd
      simp [hadd]
    · rw [getk_setk_ne _ _ hk] at hd
      rw [hwf.tagsOK hd]
      congr 1
      refine aggTags_congr ?_
      intro id hid
      obtain ⟨n, hn, _⟩ := hwf.ownership hd hid
      exact (tagView_setk_ne _ _ _ (hresolve_ne hn)).symm

/-! ### `UpdateNode` characterization and preservation -/

theorem updateNode_err {m : Manager} {nodeID : String} {f : Node → Node} {now : Int}
    (h : getk m.nodes nodeID = none) :
    m.UpdateNode nodeID f now = .error .nodeNotFound := by
  unfold Manager.UpdateNode
  rw [h]

theorem updateNode_ok {m : Manager} {nodeID : String} {node : Node} {f : Node → Node}
    {now : Int} (h : getk m.nodes nodeID = some node) :
    m.UpdateNode nodeID f now =
      .ok (replaceRefresh m nodeID { f node with UpdatedAt := now } now) := by
  unfold Manager.UpdateNode replaceRefresh
  rw [h]
  cases hdom : getk m.domains (f node).DomainID with
  | none => simp [hdom]
  | some domain => simp [hdom]

theorem wf_replaceRefresh {m : Manager} {nodeID : String} {node node1 : Node} {now : Int}
    (hwf : WF m) (hfound : getk m.nodes nodeID = some node)
    (hID : node1.ID = node.ID) (hDom : node1.DomainID = node.DomainID)
    (hHead : node.IsHead = true → node1.IsHead = true) :
    WF (replaceRefresh m nodeID node1 now) := by
  have hkey : node.ID = nodeID := hwf.nodeKey hfound
  obtain ⟨dom0, hdom0, hmem0⟩ := hwf.closure hfound
  have howner : getk m.domains node1.DomainID = some dom0 := by rw [hDom]; exact hdom0
  have hres : replaceRefresh m nodeID node1 now =
      { m with
        nodes := setk m.nodes nodeID node1
        domains := setk m.domains node1.DomainID
          { dom0 with
            ResourceTags := some (aggTags (setk m.nodes nodeID node1) dom0.NodeIDs)
            UpdatedAt := now } } := by
    unfold replaceRefresh
    rw [howner]
    rfl
  rw [hres]
  have hother_notmem : ∀ {k dd}, getk m.domains k = some dd → k ≠ node.DomainID →
      nodeID ∉ dd.NodeIDs := by
    intro k dd hd hk hmem
    obtain ⟨n2, hn2, hd2⟩ := hwf.ownership hd hmem
    rw [hfound] at hn2
    cases hn2
    exact hk hd2.symm
  constructor
  · exact nodup_keys_setk _ hwf.domKeysNodup
  · exact nodup_keys_setk _ hwf.nodeKeysNodup
  · intro k dd hd
    by_cases hk : k = node1.DomainID
    · subst hk
      rw [getk_setk_self] at hd
      cases hd
      show dom0.ID = node1.DomainID
      exact hwf.domKey howner
    · rw [getk_setk_ne _ _ hk] at hd
      exact hwf.domKey hd
  · intro k n hn
    by_cases hk : k = nodeID
    · subst hk
      rw [getk_setk_self] at hn
      cases hn
      rw [hID, hkey]
    · rw [getk_setk_ne _ _ hk] at hn
      exact hwf.nodeKey hn
  · intro k dd hd id hid
    have hmem_pre : ∃ dd0, getk m.domains k = some dd0 ∧ id ∈ dd0.NodeIDs := by
      by_cases hk : k = node1.DomainID
      · subst hk
        rw [getk_setk_self] at hd
        cases hd
        exact ⟨dom0, howner, hid⟩
      · rw [getk_setk_ne _ _ hk] at hd
        exact ⟨dd, hd, hid⟩
    obtain ⟨dd0, hd0, hid0⟩ := hmem_pre
    obtain ⟨n, hn, hDomEq⟩ := hwf.ownership hd0 hid0
    by_cases hid_eq : id = nodeID
    · subst hid_eq
      rw [hfound] at hn
      cases hn
      exact ⟨node1, getk_setk_self _ _ _, by rw [hDom]; exact hDomEq⟩
    · exact ⟨n, by rw [getk_setk_ne _ _ hid_eq]; exact hn, hDomEq⟩
  · intro k n hn
    by_cases hk : k = nodeID
    · subst hk
      rw [getk_setk_self] at hn
      cases hn
      rw [getk_setk_self]
      exact ⟨_, rfl, hmem0⟩
    · rw [getk_setk_ne _ _ hk] at hn
      obtain ⟨d0, hd0, hmem⟩ := hwf.closure hn
      by_cases hk2 : n.DomainID = node1.DomainID
      · rw [hk2] at hd0
        rw [howner] at hd0
        cases hd0
        rw [hk2, getk_setk_self]
        exact ⟨_, rfl, hmem⟩
      · rw [show getk (setk m.domains node1.DomainID _) n.DomainID = getk m.domains n.DomainID
          from getk_setk_ne _ _ hk2]
        exact ⟨d0, hd0, hmem⟩
  · intro k dd hd
    by_cases hk : k = node1.DomainID
    · subst hk
      rw [getk_setk_self] at hd
      cases hd
      show dom0.NodeIDs.Nodup
      exact hwf.memNodup howner
    · rw [getk_setk_ne _ _ hk] at hd
      exact hwf.memNodup hd
  · intro k dd hd hh hhead
    have hpre : ∃ dd0, getk m.domains k = some dd0 ∧ dd0.HeadNodeID = some hh ∧
        hh ∈ dd.NodeIDs := by
      by_cases hk : k = node1.DomainID
      · subst hk
        rw [getk_setk_self] at hd
        cases hd
        exact ⟨dom0, howner, hhead, (hwf.headMem howner hhead).1⟩
      · rw [getk_setk_ne _ _ hk] at hd
        exact ⟨dd, hd, hhead, (hwf.headMem hd hhead).1⟩
    obtain ⟨dd0, hd0, hhead0, hmemdd⟩ := hpre
    obtain ⟨_, n, hn, hish⟩ := hwf.headMem hd0 hhead0
    refine ⟨hmemdd, ?_⟩
    by_cases hhh : hh = nodeID
    · subst hhh
      rw [hfound] at hn
      cases hn
      exact ⟨node1, getk_setk_self _ _ _, hHead hish⟩
    · exact ⟨n, by rw [getk_setk_ne _ _ hhh]; exact hn, hish⟩
  · intro k dd hd
    by_cases hk : k = node1.DomainID
    · subst hk
      rw [getk_setk_self] at hd
      cases hd
      rfl
    · rw [getk_setk_ne _ _ hk] at hd
      rw [hwf.tagsOK hd]
      congr 1
      refine aggTags_congr ?_
      intro id hid
      have hne : id ≠ nodeID := by
        intro heq
        subst heq
        exact hother_notmem hd (by rw [← hDom]; exact hk) hid
      exact (tagView_setk_ne _ _ _ hne).symm

theorem wf_updateNode {m : Manager} {nodeID : String} {f : Node → Node} {now : Int}
    {m' : Manager} (hwf : WF m)
    (hID : ∀ n, (f n).ID = n.ID) (hDom : ∀ n, (f n).DomainID = n.DomainID)
    (hHead : ∀ n, n.IsHead = true → (f n).IsHead = true)
    (h : m.UpdateNode nodeID f now = .ok m') : WF m' := by
  cases hfound : getk m.nodes nodeID with
  | none =>
    rw [updateNode_err hfound] at h
    cases h
  | some node =>
    rw [updateNode_ok hfound] at h
    cases h
    exact wf_replaceRefresh hwf hfound (hID node) (hDom node) (hHead node)

/-! ### `RemoveNode` / `removeNodeUnsafe` characterization and preservation -/

theorem Domain.removeNode_of_mem {d : Domain} {id : String} (h : id ∈ d.NodeIDs) :
    d.RemoveNode id =
      { d with
        NodeIDs := d.NodeIDs.erase id
        HeadNodeID := if d.HeadNodeID = some id then none else d.HeadNodeID } := by
  simp [Domain.RemoveNode, h]

/-- The post-state shared by `RemoveNode` and `removeNodeUnsafe` once the
node was found. -/
def removeNodeResult (m : Manager) (nodeID : String) (node : Node) (now : Int) : Manager :=
  match getk m.domains node.DomainID with
  | none => { m with nodes := delk m.nodes nodeID }
  | some domain =>
    { m with
      nodes := delk m.nodes nodeID
      domains := setk m.domains node.DomainID
        (m.updateDomainResourceTags (domain.RemoveNode nodeID) now) }

theorem removeNode_err {m : Manager} {nodeID : String} {now : Int}
    (h : getk m.nodes nodeID = none) :
    m.RemoveNode nodeID now = .error .nodeNotFound := by
  unfold Manager.RemoveNode
  rw [h]

theorem removeNode_ok {m : Manager} {nodeID : String} {node : Node} {now : Int}
    (h : getk m.nodes nodeID = some node) :
    m.RemoveNode nodeID now = .ok (removeNodeResult m nodeID node now) := by
  unfold Manager.RemoveNode removeNodeResult
  rw [h]
  cases hdom : getk m.domains node.DomainID with
  | none => simp [hdom]
  | some domain => simp [hdom]

theorem removeNodeUnsafe_missing {m : Manager} {nodeID : String} {now : Int}
    (h : getk m.nodes nodeID = none) : m.removeNodeUnsafe nodeID now = m := by
  unfold Manager.removeNodeUnsafe
  rw [h]

theorem removeNodeUnsafe_found {m : Manager} {nodeID : String} {node : Node} {now : Int}
    (h : getk m.nodes nodeID = some node) :
    m.removeNodeUnsafe nodeID now = removeNodeResult m nodeID node now := by
  unfold Manager.removeNodeUnsafe removeNodeResult
  rw [h]
  cases hdom : getk m.domains node.DomainID with
  | none => simp [hdom]
  | some domain => simp [hdom]

theorem wf_removeNodeResult {m : Manager} {nodeID : String} {node : Node} {now : Int}
    (hwf : WF m) (hfound : getk m.nodes nodeID = some node) :
    WF (removeNodeResult m nodeID node now) := by
  obtain ⟨dom0, hdom0, hmem0⟩ := hwf.closure hfound
  have hnodup0 : dom0.NodeIDs.Nodup := hwf.memNodup hdom0
  have hrem : (dom0.RemoveNode nodeID).NodeIDs = dom0.NodeIDs.erase nodeID ∧
      (dom0.RemoveNode nodeID).HeadNodeID =
        (if dom0.HeadNodeID = some nodeID then none else dom0.HeadNodeID) ∧
      (dom0.RemoveNode nodeID).ID = dom0.ID := by
    rw [Domain.removeNode_of_mem hmem0]
    exact ⟨rfl, rfl, rfl⟩
  have hres : removeNodeResult m nodeID node now =
      { m with
        nodes := delk m.nodes nodeID
        domains := setk m.domains node.DomainID
          { dom0.RemoveNode nodeID with
            ResourceTags := some (aggTags m.nodes (dom0.RemoveNode nodeID).NodeIDs)
            UpdatedAt := now } } := by
    unfold removeNodeResult
    rw [hdom0]
    rfl
  have hother_notmem : ∀ {k dd}, getk m.domains k = some dd → k ≠ node.DomainID →
      nodeID ∉ dd.NodeIDs := by
    intro k dd hd hk hmem
    obtain ⟨n2, hn2, hd2⟩ := hwf.ownership hd hmem
    rw [hfound] at hn2
    cases hn2
    exact hk hd2.symm
  have hgetk_delk : ∀ {x : String}, x ≠ nodeID →
      getk (delk m.nodes nodeID) x = getk m.nodes x := fun hx => getk_delk_ne _ hx
  rw [hres]
  constructor
  · exact nodup_keys_setk _ hwf.domKeysNodup
  · exact nodup_keys_delk _ hwf.nodeKeysNodup
  · intro k dd hd
    by_cases hk : k = node.DomainID
    · subst hk
      rw [getk_setk_self] at hd
      cases hd
      show (dom0.RemoveNode nodeID).ID = node.DomainID
      rw [hrem.2.2]
      exact hwf.domKey hdom0
    · rw [getk_setk_ne _ _ hk] at hd
      exact hwf.domKey hd
  · intro k n hn
    by_cases hk : k = nodeID
    · subst hk
      rw [getk_delk_self] at hn
      cases hn
    · rw [hgetk_delk hk] at hn
      exact hwf.nodeKey hn
  · intro k dd hd id hid
    by_cases hk : k = node.DomainID
    · subst hk
      rw [getk_setk_self] at hd
      cases hd
      simp only [hrem.1] at hid
      have hid_ne : id ≠ nodeID := (hnodup0.mem_erase_iff.mp hid).1
      have hid_mem : id ∈ dom0.NodeIDs := (hnodup0.mem_erase_iff.mp hid).2
      obtain ⟨n, hn, hDomEq⟩ := hwf.ownership hdom0 hid_mem
      exact ⟨n, by rw [hgetk_delk hid_ne]; exact hn, hDomEq⟩
    · rw [getk_setk_ne _ _ hk] at hd
      have hid_ne : id ≠ nodeID := by
        intro heq
        subst heq
        exact hother_notmem hd hk hid
      obtain ⟨n, hn, hDomEq⟩ := hwf.ownership hd hid
      exact ⟨n, by rw [hgetk_delk hid_ne]; exact hn, hDomEq⟩
  · intro k n hn
    by_cases hk : k = nodeID
    · subst hk
      rw [getk_delk_self] at hn
      cases hn
    · rw [hgetk_delk hk] at hn
      obtain ⟨d0, hd0, hmem⟩ := hwf.closure hn
      by_cases hk2 : n.DomainID = node.DomainID
      · rw [hk2] at hd0
        rw [hdom0] at hd0
        cases hd0
        rw [hk2, getk_setk_self]
        refine ⟨_, rfl, ?_⟩
        simp only [hrem.1]
        exact (List.mem_erase_of_ne hk).mpr hmem
      · rw [show getk (setk m.domains node.DomainID _) n.DomainID = getk m.domains n.DomainID
          from getk_setk_ne _ _ hk2]
        exact ⟨d0, hd0, hmem⟩
  · intro k dd hd
    by_cases hk : k = node.DomainID
    · subst hk
      rw [getk_setk_self] at hd
      cases hd
      show (dom0.RemoveNode nodeID).NodeIDs.Nodup
      rw [hrem.1]
      exact hnodup0.erase nodeID
    · rw [getk_setk_ne _ _ hk] at hd
      exact hwf.memNodup hd
  · intro k dd hd hh hhead
    by_cases hk : k = node.DomainID
    · subst hk
      rw [getk_setk_self] at hd
      cases hd
      simp only [hrem.1, hrem.2.1] at hhead ⊢
      by_cases hcl : dom0.HeadNodeID = some nodeID
      · rw [if_pos hcl] at hhead
        cases hhead
      · rw [if_neg hcl] at hhead
        have hne : hh ≠ nodeID := by
          intro heq
          subst heq
          exact hcl hhead
        obtain ⟨hmem, n, hn, hish⟩ := hwf.headMem hdom0 hhead
        exact ⟨(List.mem_erase_of_ne hne).mpr hmem, n, by rw [hgetk_delk hne]; exact hn, hish⟩
    · rw [getk_setk_ne _ _ hk] at hd
      obtain ⟨hmem, n, hn, hish⟩ := hwf.headMem hd hhead
      have hne : hh ≠ nodeID := by
        intro heq
        subst heq
        exact hother_notmem hd hk hmem
      exact ⟨hmem, n, by rw [hgetk_delk hne]; exact hn, hish⟩
  · intro k dd hd
    by_cases hk : k = node.DomainID
    · subst hk
      rw [getk_setk_self] at hd
      cases hd
      show _ = some (aggTags (delk m.nodes nodeID) (dom0.RemoveNode nodeID).NodeIDs)
      simp only
      congr 1
      refine aggTags_congr ?_
      intro id hid
      rw [hrem.1] at hid
      exact (tagView_delk_ne _ _ (hnodup0.mem_erase_iff.mp hid).1).symm
    · rw [getk_setk_ne _ _ hk] at hd
      rw [hwf.tagsOK hd]
      congr 1
      refine aggTags_congr ?_
      intro id hid
      have hne : id ≠ nodeID := by
        intro heq
        subst heq
        exact hother_notmem hd hk hid
      exact (tagView_delk_ne _ _ hne).symm

theorem wf_removeNode {m : Manager} {nodeID : String} {now : Int} {m' : Manager}
    (hwf : WF m) (h : m.RemoveNode nodeID now = .ok m') : WF m' := by
  cases hfound : getk m.nodes nodeID with
  | none =>
    rw [removeNode_err hfound] at h
    cases h
  | some node =>
    rw [removeNode_ok hfound] at h
    cases h
    exact wf_removeNodeResult hwf hfound

theorem wf_removeNodeUnsafe {m : Manager} (nodeID : String) (now : Int)
    (hwf : WF m) : WF (m.removeNodeUnsafe nodeID now) := by
  cases hfound : getk m.nodes nodeID with
  | none =>
    rw [removeNodeUnsafe_missing hfound]
    exact hwf
  | some node =>
    rw [removeNodeUnsafe_found hfound]
    exact wf_removeNodeResult hwf hfound

/-! ### `RemoveDomain` characterization and preservation -/

theorem getk_foldl_delk {α : Type} (ids : List String) (nodes : List (String × α))
    (x : String) :
    getk (ids.foldl delk nodes) x = if x ∈ ids then none else getk nodes x := by
  induction ids generalizing nodes with
  | nil => simp
  | cons id rest ih =>
    simp only [List.foldl_cons]
    rw [ih]
    by_cases hx : x ∈ rest
    · simp [hx]
    · by_cases hxid : x = id
      · subst hxid
        simp [hx, getk_delk_self]
      · simp [hx, hxid, getk_delk_ne _ hxid]

theorem nodup_keys_foldl_delk {α : Type} (ids : List String) {nodes : List (String × α)}
    (h : (keysOf nodes).Nodup) : (keysOf (ids.foldl delk nodes)).Nodup := by
  induction ids generalizing nodes with
  | nil => exact h
  | cons id rest ih =>
    simp only [List.foldl_cons]
    exact ih (nodup_keys_delk id h)

theorem removeDomain_err {m : Manager} {domainID : String}
    (h : getk m.domains domainID = none) :
    m.RemoveDomain domainID = .error .domainNotFound := by
  unfold Manager.RemoveDomain
  rw [h]

theorem removeDomain_ok {m : Manager} {domainID : String} {domain : Domain}
    (h : getk m.domains domainID = some domain) :
    m.RemoveDomain domainID =
      .ok { m with
            nodes := domain.NodeIDs.foldl delk m.nodes
            domains := delk m.domains domainID } := by
  unfold Manager.RemoveDomain
  rw [h]

theorem wf_removeDomain {m : Manager} {domainID : String} {m' : Manager}
    (hwf : WF m) (h : m.RemoveDomain domainID = .ok m') : WF m' := by
  cases hdom : getk m.domains domainID with
  | none =>
    rw [removeDomain_err hdom] at h
    cases h
  | some domain =>
    rw [removeDomain_ok hdom] at h
    cases h
    have hgd : ∀ {k dd}, getk (delk m.domains domainID) k = some dd →
        k ≠ domainID ∧ getk m.domains k = some dd := by
      intro k dd hk
      by_cases hke : k = domainID
      · subst hke
        rw [getk_delk_self] at hk
        cases hk
      · rw [getk_delk_ne _ hke] at hk
        exact ⟨hke, hk⟩
    have hnot_removed : ∀ {k dd}, getk m.domains k = some dd → k ≠ domainID →
        ∀ {id}, id ∈ dd.NodeIDs → id ∉ domain.NodeIDs := by
      intro k dd hk hke id hid hid2
      obtain ⟨n1, hn1, hd1⟩ := hwf.ownership hk hid
      obtain ⟨n2, hn2, hd2⟩ := hwf.ownership hdom hid2
      rw [hn1] at hn2
      cases hn2
      exact hke (hd1 ▸ hd2 ▸ rfl)
    constructor
    · exact nodup_keys_delk _ hwf.domKeysNodup
    · exact nodup_keys_foldl_delk _ hwf.nodeKeysNodup
    · intro k dd hd
      exact hwf.domKey (hgd hd).2
    · intro k n hn
      rw [getk_foldl_delk] at hn
      by_cases hk : k ∈ domain.NodeIDs
      · rw [if_pos hk] at hn
        cases hn
      · rw [if_neg hk] at hn
        exact hwf.nodeKey hn
    · intro k dd hd id hid
      obtain ⟨hke, hd0⟩ := hgd hd
      obtain ⟨n, hn, hDomEq⟩ := hwf.ownership hd0 hid
      refine ⟨n, ?_, hDomEq⟩
      rw [getk_foldl_delk, if_neg (hnot_removed hd0 hke hid)]
      exact hn
    · intro k n hn
      rw [getk_foldl_delk] at hn
      by_cases hk : k ∈ domain.NodeIDs
      · rw [if_pos hk] at hn
        cases hn
      · rw [if_neg hk] at hn
        obtain ⟨d0, hd0, hmem⟩ := hwf.closure hn
        have hne : n.DomainID ≠ domainID := by
          intro heq
          rw [heq, hdom] at hd0
          cases hd0
          exact hk hmem
        rw [getk_delk_ne _ hne]
        exact ⟨d0, hd0, hmem⟩
    · intro k dd hd
      exact hwf.memNodup (hgd hd).2
    · intro k dd hd hh hhead
      obtain ⟨hke, hd0⟩ := hgd hd
      obtain ⟨hmem, n, hn, hish⟩ := hwf.headMem hd0 hhead
      refine ⟨hmem, n, ?_, hish⟩
      rw [getk_foldl_delk, if_neg (hnot_removed hd0 hke hmem)]
      exact hn
    · intro k dd hd
      obtain ⟨hke, hd0⟩ := hgd hd
      rw [hwf.tagsOK hd0]
      congr 1
      refine aggTags_congr ?_
      intro id hid
      unfold tagView
      rw [getk_foldl_delk, if_neg (hnot_removed hd0 hke hid)]

/-! ### The sweeper: branch characterizations -/

/-- The eviction test of `checkNodeTimeouts`. -/
def evictCond (now cleanup : Int) (n : Node) : Prop :=
  (n.Status = .offline ∨ n.Status = .error) ∧ now - n.LastSeen > cleanup

/-- The online-timeout test of `checkNodeTimeouts`. -/
def timeoutCond (now timeout : Int) (n : Node) : Prop :=
  n.Status = .online ∧ now - n.LastSeen > timeout

instance (now cleanup : Int) (n : Node) : Decidable (evictCond now cleanup n) := by
  unfold evictCond; infer_instance

instance (now timeout : Int) (n : Node) : Decidable (timeoutCond now timeout n) := by
  unfold timeoutCond; infer_instance

theorem not_evict_of_timeout {now timeout cleanup : Int} {n : Node}
    (h : timeoutCond now timeout n) : ¬ evictCond now cleanup n := by
  rintro ⟨hst, -⟩
  rw [h.1] at hst
  rcases hst with hst | hst <;> cases hst

theorem sweepVisit_absent {now : Int} {st : Manager × List String} {nodeID : String}
    (h : getk st.1.nodes nodeID = none) : sweepVisit now st nodeID = st := by
  unfold sweepVisit
  rw [h]

theorem sweepVisit_evict {now : Int} {st : Manager × List String} {nodeID : String}
    {n : Node} (h : getk st.1.nodes nodeID = some n)
    (hc : evictCond now st.1.cleanupDuration n) :
    sweepVisit now st nodeID = (st.1, st.2 ++ [nodeID]) := by
  unfold sweepVisit
  simp only [h]
  rw [if_pos (show (n.Status = .offline ∨ n.Status = .error) ∧
    now - n.LastSeen > st.1.cleanupDuration from hc)]

theorem sweepVisit_timeout {now : Int} {st : Manager × List String} {nodeID : String}
    {n : Node} (h : getk st.1.nodes nodeID = some n)
    (hne : ¬ evictCond now st.1.cleanupDuration n)
    (hc : timeoutCond now st.1.timeoutDuration n) :
    sweepVisit now st nodeID =
      (replaceRefresh st.1 nodeID { n with Status := .offline, UpdatedAt := now } now,
        st.2) := by
  unfold sweepVisit
  simp only [h]
  rw [if_neg (show ¬((n.Status = .offline ∨ n.Status = .error) ∧
        now - n.LastSeen > st.1.cleanupDuration) from hne),
    if_pos (show n.Status = .online ∧ now - n.LastSeen > st.1.timeoutDuration from hc)]

theorem sweepVisit_idle {now : Int} {st : Manager × List String} {nodeID : String}
    {n : Node} (h : getk st.1.nodes nodeID = some n)
    (hne : ¬ evictCond now st.1.cleanupDuration n)
    (hnt : ¬ timeoutCond now st.1.timeoutDuration n) :
    sweepVisit now st nodeID = st := by
  unfold sweepVisit
  simp only [h]
  rw [if_neg (show ¬((n.Status = .offline ∨ n.Status = .error) ∧
        now - n.LastSeen > st.1.cleanupDuration) from hne),
    if_neg (show ¬(n.Status = .online ∧ now - n.LastSeen > st.1.timeoutDuration) from hnt)]

theorem replaceRefresh_nodes (m : Manager) (nodeID : String) (n1 : Node) (now : Int) :
    (replaceRefresh m nodeID n1 now).nodes = setk m.nodes nodeID n1 := by
  unfold replaceRefresh
  cases getk m.domains n1.DomainID <;> rfl

theorem replaceRefresh_durations (m : Manager) (nodeID : String) (n1 : Node) (now : Int) :
    (replaceRefresh m nodeID n1 now).timeoutDuration = m.timeoutDuration ∧
    (replaceRefresh m nodeID n1 now).cleanupDuration = m.cleanupDuration := by
  unfold replaceRefresh
  cases getk m.domains n1.DomainID <;> exact ⟨rfl, rfl⟩

theorem removeNodeResult_nodes (m : Manager) (nodeID : String) (node : Node) (now : Int) :
    (removeNodeResult m nodeID node now).nodes = delk m.nodes nodeID := by
  unfold removeNodeResult
  cases getk m.domains node.DomainID <;> rfl

theorem removeNodeUnsafe_durations (m : Manager) (nodeID : String) (now : Int) :
    (m.removeNodeUnsafe nodeID now).timeoutDuration = m.timeoutDuration ∧
    (m.removeNodeUnsafe nodeID now).cleanupDuration = m.cleanupDuration := by
  cases h : getk m.nodes nodeID with
  | none => rw [removeNodeUnsafe_missing h]; exact ⟨rfl, rfl⟩
  | some node =>
    rw [removeNodeUnsafe_found h]
    unfold removeNodeResult
    cases getk m.domains node.DomainID <;> exact ⟨rfl, rfl⟩

theorem wf_sweepVisit {now : Int} {st : Manager × List String} (nodeID : String)
    (hwf : WF st.1) : WF (sweepVisit now st nodeID).1 := by
  cases h : getk st.1.nodes nodeID with
  | none => rw [sweepVisit_absent h]; exact hwf
  | some n =>
    by_cases he : evictCond now st.1.cleanupDuration n
    · rw [sweepVisit_evict h he]
      exact hwf
    · by_cases ht : timeoutCond now st.1.timeoutDuration n
      · rw [sweepVisit_timeout h he ht]
        exact wf_replaceRefresh hwf h rfl rfl (fun hh => hh)
      · rw [sweepVisit_idle h he ht]
        exact hwf

theorem wf_phase1 {now : Int} (l : List String) :
    ∀ st : Manager × List String, WF st.1 → WF ((l.foldl (sweepVisit now) st).1) := by
  induction l with
  | nil => intro st h; exact h
  | cons id rest ih =>
    intro st h
    simp only [List.foldl_cons]
    exact ih _ (wf_sweepVisit id h)

theorem wf_phase2 {now : Int} (ids : List String) :
    ∀ mm : Manager, WF mm →
      WF (ids.foldl (fun acc nodeID => acc.removeNodeUnsafe nodeID now) mm) := by
  induction ids with
  | nil => intro mm h; exact h
  | cons id rest ih =>
    intro mm h
    simp only [List.foldl_cons]
    exact ih _ (wf_removeNodeUnsafe id now h)

theorem wf_checkNodeTimeouts {m : Manager} (now : Int) (hwf : WF m) :
    WF (m.checkNodeTimeouts now) := by
  unfold Manager.checkNodeTimeouts
  exact wf_phase2 _ _ (wf_phase1 _ _ hwf)

/-! ### Sweeper pass 1: per-node effect of the marking fold -/

theorem sweepVisit_nodes_frame {now : Int} {st : Manager × List String} {nodeID x : String}
    (hx : x ≠ nodeID) :
    getk (sweepVisit now st nodeID).1.nodes x = getk st.1.nodes x := by
  cases h : getk st.1.nodes nodeID with
  | none => rw [sweepVisit_absent h]
  | some n =>
    by_cases he : evictCond now st.1.cleanupDuration n
    · rw [sweepVisit_evict h he]
    · by_cases ht : timeoutCond now st.1.timeoutDuration n
      · rw [sweepVisit_timeout h he ht]
        simp only [replaceRefresh_nodes]
        exact getk_setk_ne _ _ hx
      · rw [sweepVisit_idle h he ht]

theorem sweepVisit_durations {now : Int} {st : Manager × List String} {nodeID : String} :
    (sweepVisit now st nodeID).1.timeoutDuration = st.1.timeoutDuration ∧
    (sweepVisit now st nodeID).1.cleanupDuration = st.1.cleanupDuration := by
  cases h : getk st.1.nodes nodeID with
  | none => rw [sweepVisit_absent h]; exact ⟨rfl, rfl⟩
  | some n =>
    by_cases he : evictCond now st.1.cleanupDuration n
    · rw [sweepVisit_evict h he]; exact ⟨rfl, rfl⟩
    · by_cases ht : timeoutCond now st.1.timeoutDuration n
      · rw [sweepVisit_timeout h he ht]
        exact replaceRefresh_durations _ _ _ _
      · rw [sweepVisit_idle h he ht]; exact ⟨rfl, rfl⟩

theorem sweepVisit_visit {now : Int} {st : Manager × List String} {nodeID : String}
    {n : Node} (h : getk st.1.nodes nodeID = some n) :
    getk (sweepVisit now st nodeID).1.nodes nodeID =
      (if timeoutCond now st.1.timeoutDuration n ∧ ¬ evictCond now st.1.cleanupDuration n
       then some { n with Status := .offline, UpdatedAt := now } else some n) ∧
    (sweepVisit now st nodeID).2 =
      st.2 ++ (if evictCond now st.1.cleanupDuration n then [nodeID] else []) := by
  by_cases he : evictCond now st.1.cleanupDuration n
  · rw [sweepVisit_evict h he]
    refine ⟨?_, by rw [if_pos he]⟩
    rw [if_neg (fun hc => hc.2 he)]
    exact h
  · by_cases ht : timeoutCond now st.1.timeoutDuration n
    · rw [sweepVisit_timeout h he ht]
      refine ⟨?_, by rw [if_neg he]; simp⟩
      simp only [replaceRefresh_nodes, getk_setk_self]
      rw [if_pos ⟨ht, he⟩]
    · rw [sweepVisit_idle h he ht]
      refine ⟨?_, by rw [if_neg he]; simp⟩
      rw [if_neg (fun hc => ht hc.1)]
      exact h

/-- The eviction predicate the pass-1 fold accumulates, evaluated on a state. -/
def evictTest (now : Int) (st : Manager × List String) (x : String) : Bool :=
  match getk st.1.nodes x with
  | some n => decide (evictCond now st.1.cleanupDuration n)
  | none => false

theorem phase1_spec (now : Int) :
    ∀ (l : List String) (st : Manager × List String), l.Nodup →
      (∀ x, x ∉ l →
        getk ((l.foldl (sweepVisit now) st).1).nodes x = getk st.1.nodes x) ∧
      (∀ x ∈ l,
        getk ((l.foldl (sweepVisit now) st).1).nodes x =
          (match getk st.1.nodes x with
           | none => none
           | some n =>
             if timeoutCond now st.1.timeoutDuration n ∧
                 ¬ evictCond now st.1.cleanupDuration n
             then some { n with Status := .offline, UpdatedAt := now }
             else some n)) ∧
      ((l.foldl (sweepVisit now) st).2 = st.2 ++ l.filter (evictTest now st)) ∧
      ((l.foldl (sweepVisit now) st).1.timeoutDuration = st.1.timeoutDuration ∧
       (l.foldl (sweepVisit now) st).1.cleanupDuration = st.1.cleanupDuration) := by
  intro l
  induction l with
  | nil =>
    intro st _
    refine ⟨fun x _ => rfl, by simp, by simp, rfl, rfl⟩
  | cons id rest ih =>
    intro st hnodup
    rw [List.nodup_cons] at hnodup
    obtain ⟨hid, hrest⟩ := hnodup
    simp only [List.foldl_cons]
    obtain ⟨ihframe, ihmem, ihsnd, ihdur⟩ := ih (sweepVisit now st id) hrest
    have hdur1 := @sweepVisit_durations now st id
    refine ⟨?_, ?_, ?_, ?_, ?_⟩
    · intro x hx
      rw [List.mem_cons, not_or] at hx
      rw [ihframe x hx.2]
      exact sweepVisit_nodes_frame hx.1
    · intro x hx
      rcases List.mem_cons.mp hx with heq | hmem
      · subst heq
        rw [ihframe x hid]
        cases h : getk st.1.nodes x with
        | none => rw [sweepVisit_absent h, h]
        | some n =>
          exact (sweepVisit_visit h).1
      · have hxid : x ≠ id := fun heq => hid (heq ▸ hmem)
        rw [ihmem x hmem, sweepVisit_nodes_frame hxid, hdur1.1, hdur1.2]
    · rw [ihsnd]
      have hsnd1 : (sweepVisit now st id).2 = st.2 ++ (if evictTest now st id then [id] else []) := by
        cases h : getk st.1.nodes id with
        | none => rw [sweepVisit_absent h]; simp [evictTest, h]
        | some n =>
          rw [(sweepVisit_visit h).2]
          by_cases he : evictCond now st.1.cleanupDuration n <;>
            simp [evictTest, h, he]
      have hfilter : rest.filter (evictTest now (sweepVisit now st id)) =
          rest.filter (evictTest now st) := by
        refine List.filter_congr ?_
        intro x hx
        have hxid : x ≠ id := by
          intro heq
          subst heq
          exact hid hx
        unfold evictTest
        rw [sweepVisit_nodes_frame hxid, hdur1.2]
      rw [hsnd1, hfilter, List.filter_cons]
      by_cases he : evictTest now st id <;> simp [he]
    · rw [ihdur.1, hdur1.1]
    · rw [ihdur.2, hdur1.2]

/-! ### Sweeper pass 2: per-node effect of the eviction fold -/

theorem removeNodeUnsafe_nodes_frame {mm : Manager} {y : String} {now : Int} {x : String}
    (hx : x ≠ y) : getk (mm.removeNodeUnsafe y now).nodes x = getk mm.nodes x := by
  cases h : getk mm.nodes y with
  | none => rw [removeNodeUnsafe_missing h]
  | some node =>
    rw [removeNodeUnsafe_found h]
    rw [removeNodeResult_nodes]
    exact getk_delk_ne _ hx

theorem removeNodeUnsafe_nodes_absent (mm : Manager) (y : String) (now : Int) :
    getk (mm.removeNodeUnsafe y now).nodes y = none := by
  cases h : getk mm.nodes y with
  | none => rw [removeNodeUnsafe_missing h]; exact h
  | some node =>
    rw [removeNodeUnsafe_found h, removeNodeResult_nodes]
    exact getk_delk_self _ _

theorem phase2_frame (now : Int) :
    ∀ (ids : List String) (mm : Manager) (x : String), x ∉ ids →
      getk ((ids.foldl (fun acc nodeID => acc.removeNodeUnsafe nodeID now) mm)).nodes x =
        getk mm.nodes x := by
  intro ids
  induction ids with
  | nil => intro mm x _; rfl
  | cons id rest ih =>
    intro mm x hx
    rw [List.mem_cons, not_or] at hx
    simp only [List.foldl_cons]
    rw [ih _ x hx.2]
    exact removeNodeUnsafe_nodes_frame hx.1

theorem phase2_absent (now : Int) :
    ∀ (ids : List String) (mm : Manager) (x : String), getk mm.nodes x = none →
      getk ((ids.foldl (fun acc nodeID => acc.removeNodeUnsafe nodeID now) mm)).nodes x =
        none := by
  intro ids
  induction ids with
  | nil => intro mm x h; exact h
  | cons id rest ih =>
    intro mm x h
    simp only [List.foldl_cons]
    refine ih _ x ?_
    by_cases hx : x = id
    · subst hx
      exact removeNodeUnsafe_nodes_absent mm x now
    · rw [removeNodeUnsafe_nodes_frame hx]
      exact h

theorem phase2_removed (now : Int) :
    ∀ (ids : List String) (mm : Manager) (x : String), x ∈ ids →
      getk ((ids.foldl (fun acc nodeID => acc.removeNodeUnsafe nodeID now) mm)).nodes x =
        none := by
  intro ids
  induction ids with
  | nil => intro mm x h; simp at h
  | cons id rest ih =>
    intro mm x hx
    simp only [List.foldl_cons]
    rcases List.mem_cons.mp hx with heq | hmem
    · subst heq
      exact phase2_absent now rest _ x (removeNodeUnsafe_nodes_absent mm x now)
    · exact ih _ x hmem

/-! ### Sweeper: which domains get stamped `UpdatedAt = now` -/

/-- Every domain write during a tick carries `UpdatedAt = now`; this is the
predicate propagated forward once the write of interest has happened. -/
def domUpdatedAtNow (k : String) (now : Int) (mm : Manager) : Prop :=
  ∀ d, getk mm.domains k = some d → d.UpdatedAt = now

theorem replaceRefresh_domUp {m : Manager} {nodeID : String} {n1 : Node} {now : Int}
    {k : String} (h : domUpdatedAtNow k now m) :
    domUpdatedAtNow k now (replaceRefresh m nodeID n1 now) := by
  unfold replaceRefresh
  cases hdom : getk m.domains n1.DomainID with
  | none => exact h
  | some domain =>
    intro d hd
    by_cases hk : k = n1.DomainID
    · subst hk
      rw [getk_setk_self] at hd
      cases hd
      rfl
    · rw [getk_setk_ne _ _ hk] at hd
      exact h d hd

theorem replaceRefresh_domUp_self {m : Manager} {nodeID : String} {n1 : Node} {now : Int} :
    domUpdatedAtNow n1.DomainID now (replaceRefresh m nodeID n1 now) := by
  unfold replaceRefresh
  cases hdom : getk m.domains n1.DomainID with
  | none =>
    intro d hd
    simp only at hd
    rw [hdom] at hd
    cases hd
  | some domain =>
    intro d hd
    simp only at hd
    rw [getk_setk_self] at hd
    cases hd
    rfl

theorem sweepVisit_domUp {now : Int} {st : Manager × List String} {nodeID : String}
    {k : String} (h : domUpdatedAtNow k now st.1) :
    domUpdatedAtNow k now (sweepVisit now st nodeID).1 := by
  cases hfound : getk st.1.nodes nodeID with
  | none => rw [sweepVisit_absent hfound]; exact h
  | some n =>
    by_cases he : evictCond now st.1.cleanupDuration n
    · rw [sweepVisit_evict hfound he]; exact h
    · by_cases ht : timeoutCond now st.1.timeoutDuration n
      · rw [sweepVisit_timeout hfound he ht]
        exact replaceRefresh_domUp h
      · rw [sweepVisit_idle hfound he ht]; exact h

theorem removeNodeUnsafe_domUp {mm : Manager} {y : String} {now : Int} {k : String}
    (h : domUpdatedAtNow k now mm) :
    domUpdatedAtNow k now (mm.removeNodeUnsafe y now) := by
  cases hfound : getk mm.nodes y with
  | none => rw [removeNodeUnsafe_missing hfound]; exact h
  | some node =>
    rw [removeNodeUnsafe_found hfound]
    unfold removeNodeResult
    cases hdom : getk mm.domains node.DomainID with
    | none => exact h
    | some domain =>
      intro d hd
      by_cases hk : k = node.DomainID
      · subst hk
        rw [getk_setk_self] at hd
        cases hd
        rfl
      · rw [getk_setk_ne _ _ hk] at hd
        exact h d hd

theorem removeNodeUnsafe_domUp_self {mm : Manager} {y : String} {now : Int} {n : Node}
    (h : getk mm.nodes y = some n) :
    domUpdatedAtNow n.DomainID now (mm.removeNodeUnsafe y now) := by
  rw [removeNodeUnsafe_found h]
  unfold removeNodeResult
  cases hdom : getk mm.domains n.DomainID with
  | none =>
    intro d hd
    simp only at hd
    rw [hdom] at hd
    cases hd
  | some domain =>
    intro d hd
    simp only at hd
    rw [getk_setk_self] at hd
    cases hd
    rfl

theorem phase1_domUp {now : Int} (l : List String) :
    ∀ (st : Manager × List String) (k : String), domUpdatedAtNow k now st.1 →
      domUpdatedAtNow k now ((l.foldl (sweepVisit now) st).1) := by
  induction l with
  | nil => intro st k h; exact h
  | cons id rest ih =>
    intro st k h
    simp only [List.foldl_cons]
    exact ih _ k (sweepVisit_domUp h)

theorem phase2_domUp {now : Int} (ids : List String) :
    ∀ (mm : Manager) (k : String), domUpdatedAtNow k now mm →
      domUpdatedAtNow k now
        (ids.foldl (fun acc nodeID => acc.removeNodeUnsafe nodeID now) mm) := by
  induction ids with
  | nil => intro mm k h; exact h
  | cons id rest ih =>
    intro mm k h
    simp only [List.foldl_cons]
    exact ih _ k (removeNodeUnsafe_domUp h)

/-! ### One sweeper tick, end to end -/

theorem checkNodeTimeouts_nodes_some {m : Manager} {now : Int} {x : String} {n : Node}
    (hnodup : (keysOf m.nodes).Nodup) (hx : getk m.nodes x = some n) :
    getk (m.checkNodeTimeouts now).nodes x =
      (if evictCond now m.cleanupDuration n then none
       else if timeoutCond now m.timeoutDuration n
       then some { n with Status := .offline, UpdatedAt := now }
       else some n) := by
  obtain ⟨hframe, hmem, hsnd, hdur⟩ := phase1_spec now (keysOf m.nodes) (m, []) hnodup
  have hx_mem : x ∈ keysOf m.nodes := mem_keys_of_getk_eq_some hx
  unfold Manager.checkNodeTimeouts
  by_cases he : evictCond now m.cleanupDuration n
  · have hxrem : x ∈ ((keysOf m.nodes).foldl (sweepVisit now) (m, [])).2 := by
      rw [hsnd]
      simp only [List.nil_append, List.mem_filter]
      exact ⟨hx_mem, by simp [evictTest, hx, he]⟩
    rw [if_pos he]
    exact phase2_removed now _ _ x hxrem
  · have hnotrem : x ∉ ((keysOf m.nodes).foldl (sweepVisit now) (m, [])).2 := by
      rw [hsnd]
      simp only [List.nil_append, List.mem_filter]
      rintro ⟨-, hpred⟩
      simp [evictTest, hx] at hpred
      exact he hpred
    rw [phase2_frame now _ _ x hnotrem, hmem x hx_mem]
    simp only [hx]
    rw [if_neg he]
    by_cases ht : timeoutCond now m.timeoutDuration n
    · rw [if_pos ht]
      simp [ht, he]
    · rw [if_neg ht]
      simp [ht]

theorem checkNodeTimeouts_nodes_none {m : Manager} {now : Int} {x : String}
    (hnodup : (keysOf m.nodes).Nodup) (hx : getk m.nodes x = none) :
    getk (m.checkNodeTimeouts now).nodes x = none := by
  obtain ⟨hframe, hmem, hsnd, hdur⟩ := phase1_spec now (keysOf m.nodes) (m, []) hnodup
  have hx_mem : x ∉ keysOf m.nodes := by
    intro hmem'
    have := getk_isSome_of_mem_keys hmem'
    rw [hx] at this
    simp at this
  unfold Manager.checkNodeTimeouts
  refine phase2_absent now _ _ x ?_
  rw [hframe x hx_mem]
  exact hx

theorem checkNodeTimeouts_domUp {m : Manager} {now : Int} {x : String} {n : Node}
    (hnodup : (keysOf m.nodes).Nodup) (hx : getk m.nodes x = some n)
    (hcond : evictCond now m.cleanupDuration n ∨ timeoutCond now m.timeoutDuration n) :
    domUpdatedAtNow n.DomainID now (m.checkNodeTimeouts now) := by
  obtain ⟨hframe, hmem, hsnd, hdur⟩ := phase1_spec now (keysOf m.nodes) (m, []) hnodup
  have hx_mem : x ∈ keysOf m.nodes := mem_keys_of_getk_eq_some hx
  unfold Manager.checkNodeTimeouts
  rcases hcond with he | ht
  · -- eviction: the write happens at x's removal in pass 2
    have hval : getk ((keysOf m.nodes).foldl (sweepVisit now) (m, [])).1.nodes x = some n := by
      rw [hmem x hx_mem]
      simp only [hx]
      rw [if_neg (fun hc => hc.2 he)]
    have hxrem : x ∈ ((keysOf m.nodes).foldl (sweepVisit now) (m, [])).2 := by
      rw [hsnd]
      simp only [List.nil_append, List.mem_filter]
      exact ⟨hx_mem, by simp [evictTest, hx, he]⟩
    have hremnodup : (((keysOf m.nodes).foldl (sweepVisit now) (m, [])).2).Nodup := by
      rw [hsnd]
      simp only [List.nil_append]
      exact hnodup.filter _
    obtain ⟨t1, t2, hsplit⟩ := List.append_of_mem hxrem
    rw [hsplit] at hremnodup
    rw [List.nodup_append] at hremnodup
    obtain ⟨ht1, ht2, hdisj⟩ := hremnodup
    have hxt1 : x ∉ t1 := fun hx1 => hdisj hx1 (List.mem_cons_self x t2)
    rw [hsplit, List.foldl_append, List.foldl_cons]
    have hx1 : getk (t1.foldl (fun acc nodeID => acc.removeNodeUnsafe nodeID now)
        ((keysOf m.nodes).foldl (sweepVisit now) (m, [])).1).nodes x = some n := by
      rw [phase2_frame now t1 _ x hxt1]
      exact hval
    exact phase2_domUp t2 _ _ (removeNodeUnsafe_domUp_self hx1)
  · -- online timeout: the write happens at x's visit in pass 1
    have he := @not_evict_of_timeout now m.timeoutDuration m.cleanupDuration n ht
    obtain ⟨l1, l2, hsplit⟩ := List.append_of_mem hx_mem
    have hnodup2 := hnodup
    rw [hsplit, List.nodup_append] at hnodup2
    obtain ⟨hl1, hl2, hdisj⟩ := hnodup2
    have hxl1 : x ∉ l1 := fun hx1 => hdisj hx1 (List.mem_cons_self x l2)
    obtain ⟨hframe1, _, _, hdur1⟩ := phase1_spec now l1 (m, []) hl1
    have hvalA : getk (l1.foldl (sweepVisit now) (m, [])).1.nodes x = some n := by
      rw [hframe1 x hxl1]
      exact hx
    have hvisit : sweepVisit now (l1.foldl (sweepVisit now) (m, [])) x =
        (replaceRefresh (l1.foldl (sweepVisit now) (m, [])).1 x
          { n with Status := .offline, UpdatedAt := now } now,
         (l1.foldl (sweepVisit now) (m, [])).2) := by
      refine sweepVisit_timeout hvalA ?_ ?_
      · rw [hdur1.2]
        exact he
      · rw [hdur1.1]
        exact ht
    have hstart : domUpdatedAtNow n.DomainID now
        (sweepVisit now (l1.foldl (sweepVisit now) (m, [])) x).1 := by
      rw [hvisit]
      exact replaceRefresh_domUp_self
    have hp1 : domUpdatedAtNow n.DomainID now
        ((keysOf m.nodes).foldl (sweepVisit now) (m, [])).1 := by
      rw [hsplit, List.foldl_append, List.foldl_cons]
      exact phase1_domUp l2 _ _ hstart
    exact phase2_domUp _ _ _ hp1

/-! ### The intake RPC handlers preserve well-formedness -/

theorem healthCheckUpdateFn_spec (req : HealthCheckRequest) (now : Int) (n : Node) :
    (healthCheckUpdateFn req now n).ID = n.ID ∧
    (healthCheckUpdateFn req now n).DomainID = n.DomainID ∧
    (healthCheckUpdateFn req now n).Name = n.Name ∧
    (healthCheckUpdateFn req now n).CreatedAt = n.CreatedAt ∧
    (healthCheckUpdateFn req now n).ResourceCapacity = n.ResourceCapacity ∧
    (healthCheckUpdateFn req now n).Status = convertProtoNodeStatus req.Status ∧
    (healthCheckUpdateFn req now n).LastSeen = now ∧
    (healthCheckUpdateFn req now n).UpdatedAt = now ∧
    (healthCheckUpdateFn req now n).Address =
      (if req.Address = "" then n.Address else req.Address) ∧
    (healthCheckUpdateFn req now n).ResourceTags =
      (match req.ResourceTags with
       | none => n.ResourceTags
       | some _ => some (convertProtoResourceTags req.ResourceTags)) ∧
    (healthCheckUpdateFn req now n).IsHead = (n.IsHead || req.IsHead) := by
  unfold healthCheckUpdateFn
  by_cases ha : req.Address = "" <;>
    cases ht : req.ResourceTags <;>
      by_cases hh : req.IsHead <;>
        simp [ha, ht, hh]

theorem except_ok_inj {α ε : Type} {a b : α}
    (h : (Except.ok a : Except ε α) = Except.ok b) : a = b := by
  cases h
  rfl

theorem registerNode_ok_inv {m : Manager} {req : RegisterNodeRequest} {now : Int}
    {p : Manager × RegisterNodeResponse}
    (h : Server.RegisterNode m req now = .ok p) :
    ∃ node : Node, m.AddNode node now = .ok p.1 := by
  unfold Server.RegisterNode at h
  by_cases h1 : req.DomainId = ""
  · rw [if_pos h1] at h; cases h
  · rw [if_neg h1] at h
    by_cases h2 : req.NodeId = ""
    · rw [if_pos h2] at h; cases h
    · rw [if_neg h2] at h
      by_cases h3 : req.NodeName = ""
      · rw [if_pos h3] at h; cases h
      · rw [if_neg h3] at h
        cases hdom : m.GetDomain req.DomainId with
        | error e => rw [hdom] at h; cases h
        | ok domain =>
          rw [hdom] at h
          cases hadd : m.AddNode
              { ID := req.NodeId, DomainID := req.DomainId, Name := req.NodeName,
                Address := "", IsHead := false, Status := .offline,
                ResourceTags := some NewEmptyResourceTags, ResourceCapacity := none,
                CreatedAt := now, UpdatedAt := now, LastSeen := now } now with
          | error e =>
            simp only [hadd] at h
            cases h
          | ok m1 =>
            simp only [hadd] at h
            have hp := except_ok_inj h
            rw [← hp]
            exact ⟨_, hadd⟩

theorem wf_updateNodeStatus {m : Manager} {nodeID : String} {status : NodeStatus}
    {now : Int} {m' : Manager} (hwf : WF m)
    (h : m.UpdateNodeStatus nodeID status now = .ok m') : WF m' := by
  unfold Manager.UpdateNodeStatus at h
  exact wf_updateNode (f := fun node => { node with Status := status, LastSeen := now })
    hwf (fun n => rfl) (fun n => rfl) (fun n hh => hh) h

theorem wf_healthCheck {m : Manager} {req : HealthCheckRequest} {now : Int}
    {p : Manager × HealthCheckResponse} (hwf : WF m)
    (h : Server.HealthCheck m req now = .ok p) : WF p.1 := by
  unfold Server.HealthCheck at h
  by_cases h1 : req.NodeId = ""
  · rw [if_pos h1] at h; cases h
  · rw [if_neg h1] at h
    by_cases h2 : req.DomainId = ""
    · rw [if_pos h2] at h; cases h
    · rw [if_neg h2] at h
      cases hnode : m.GetNode req.NodeId with
      | error e =>
        simp only [hnode] at h
        cases hdom : m.GetDomain req.DomainId with
        | error e2 => simp only [hdom] at h; cases h
        | ok domain =>
          simp only [hdom] at h
          cases hadd : m.AddNode
              { ID := req.NodeId, DomainID := req.DomainId, Name := req.NodeId,
                Address := req.Address, IsHead := req.IsHead,
                Status := convertProtoNodeStatus req.Status,
                ResourceTags := some (convertProtoResourceTags req.ResourceTags),
                ResourceCapacity := none, CreatedAt := now, UpdatedAt := now,
                LastSeen := now } now with
          | error e3 => simp only [hadd] at h; cases h
          | ok m1 =>
            simp only [hadd] at h
            have hp := except_ok_inj h
            rw [← hp]
            exact wf_addNode hwf hadd
      | ok node0 =>
        simp only [hnode] at h
        cases hupd : m.UpdateNode req.NodeId (healthCheckUpdateFn req now) now with
        | error e => simp only [hupd] at h; cases h
        | ok m1 =>
          simp only [hupd] at h
          have hwf1 : WF m1 :=
            wf_updateNode (f := healthCheckUpdateFn req now) hwf
              (fun n => (healthCheckUpdateFn_spec req now n).1)
              (fun n => (healthCheckUpdateFn_spec req now n).2.1)
              (fun n hh => by
                rw [(healthCheckUpdateFn_spec req now n).2.2.2.2.2.2.2.2.2.2, hh]
                simp)
              hupd
          cases hst : m1.UpdateNodeStatus req.NodeId (convertProtoNodeStatus req.Status) now with
          | ok m2 =>
            simp only [hst] at h
            have hp := except_ok_inj h
            rw [← hp]
            exact wf_updateNodeStatus hwf1 hst
          | error e =>
            simp only [hst] at h
            have hp := except_ok_inj h
            rw [← hp]
            exact hwf1

/-! ### Every operation preserves well-formedness -/

theorem wf_applyOp {m : Manager} (hwf : WF m) (op : Op) : WF (applyOp m op) := by
  cases op with
  | addDomain id name description t =>
    simp only [applyOp]
    cases hres : m.AddDomain (mkStoredDomain id name description t) with
    | error e => simp only [orKeep]; exact hwf
    | ok m1 =>
      simp only [orKeep]
      exact wf_addDomain hwf rfl rfl rfl hres
  | addNode n now =>
    simp only [applyOp]
    cases hres : m.AddNode n now with
    | error e => simp only [orKeep]; exact hwf
    | ok m1 => simp only [orKeep]; exact wf_addNode hwf hres
  | registerNode req now =>
    simp only [applyOp]
    cases hres : Server.RegisterNode m req now with
    | error e => exact hwf
    | ok p =>
      obtain ⟨node, hadd⟩ := registerNode_ok_inv hres
      exact wf_addNode hwf hadd
  | healthCheck req now =>
    simp only [applyOp]
    cases hres : Server.HealthCheck m req now with
    | error e => exact hwf
    | ok p => exact wf_healthCheck hwf hres
  | updateNodeStatus id status now =>
    simp only [applyOp]
    cases hres : m.UpdateNodeStatus id status now with
    | error e => simp only [orKeep]; exact hwf
    | ok m1 => simp only [orKeep]; exact wf_updateNodeStatus hwf hres
  | removeNode id now =>
    simp only [applyOp]
    cases hres : m.RemoveNode id now with
    | error e => simp only [orKeep]; exact hwf
    | ok m1 => simp only [orKeep]; exact wf_removeNode hwf hres
  | removeDomain id =>
    simp only [applyOp]
    cases hres : m.RemoveDomain id with
    | error e => simp only [orKeep]; exact hwf
    | ok m1 => simp only [orKeep]; exact wf_removeDomain hwf hres
  | sweep now =>
    simp only [applyOp]
    exact wf_checkNodeTimeouts now hwf

theorem wf_run (ops : List Op) : WF (run ops) := by
  suffices h : ∀ m : Manager, WF m → WF (ops.foldl applyOp m) by
    exact h NewManager wf_newManager
  induction ops with
  | nil => intro m h; exact h
  | cons op rest ih =>
    intro m h
    simp only [List.foldl_cons]
    exact ih _ (wf_applyOp h op)

theorem wf_reachable {m : Manager} (h : Reachable m) : WF m := by
  obtain ⟨ops, rfl⟩ := h
  exact wf_run ops

/-! ## Claims -/

/-! ### C10: `Domain.AddNode` is idempotent -/

theorem domain_addNode_nodup_step (d : Domain) (id : String)
    (h : d.NodeIDs.Nodup) : (d.AddNode id).NodeIDs.Nodup := by
  by_cases hmem : id ∈ d.NodeIDs
  · rw [Domain.addNode_of_mem hmem]
    exact h
  · rw [Domain.addNode_of_not_mem hmem]
    refine h.append (by simp) ?_
    intro a ha hb
    simp at hb
    subst hb
    exact hmem ha

/-- C10: `Domain.AddNode` is idempotent — adding an ID already present in
`NodeIDs` leaves the domain unchanged, so however many times `AddNode` is
applied, `NodeIDs` never holds the same ID twice. -/
theorem c10_main :
    (∀ (d : Domain) (id : String), id ∈ d.NodeIDs → d.AddNode id = d) ∧
    (∀ (d : Domain) (ids : List String), d.NodeIDs.Nodup →
      ((ids.foldl Domain.AddNode d).NodeIDs).Nodup) := by
  constructor
  · intro d id h
    exact Domain.addNode_of_mem h
  · intro d ids
    induction ids generalizing d with
    | nil => intro h; exact h
    | cons id rest ih =>
      intro h
      simp only [List.foldl_cons]
      exact ih _ (domain_addNode_nodup_step d id h)

/-- Example domain for the C10 witness. -/
def c10Dom : Domain :=
  { ID := "d1", Name := "prod", Description := "", ResourceTags := none,
    HeadNodeID := none, NodeIDs := ["a"], CreatedAt := 0, UpdatedAt := 0 }

theorem c10_witness :
    c10Dom.AddNode "a" = c10Dom ∧
    (((["a", "b", "a", "b"].foldl Domain.AddNode c10Dom).NodeIDs).Nodup) :=
  ⟨c10_main.1 c10Dom "a" (by decide), c10_main.2 c10Dom ["a", "b", "a", "b"] (by decide)⟩

/-! ### C9: `GetDomainStats` counts only resolvable members, once each -/

/-- Whether a `NodeIDs` entry still resolves in the `nodes` map. -/
def resolvesIn (m : Manager) (id : String) : Bool :=
  (getk m.nodes id).isSome

/-- Whether a `NodeIDs` entry resolves to a node with the given status. -/
def hasStatus (m : Manager) (id : String) (st : NodeStatus) : Bool :=
  match getk m.nodes id with
  | some n => decide (n.Status = st)
  | none => false

theorem statsStep_unfold_none {m : Manager} {id : String} (h : getk m.nodes id = none)
    (s : DomainStats) : statsStep m s id = s := by
  unfold statsStep Manager.GetNode
  rw [h]

theorem statsStep_unfold_some {m : Manager} {id : String} {n : Node}
    (h : getk m.nodes id = some n) (s : DomainStats) :
    statsStep m s id =
      (match n.Status with
       | .online => { s with TotalNodes := s.TotalNodes + 1, OnlineNodes := s.OnlineNodes + 1 }
       | .offline => { s with TotalNodes := s.TotalNodes + 1, OfflineNodes := s.OfflineNodes + 1 }
       | .error => { s with TotalNodes := s.TotalNodes + 1, ErrorNodes := s.ErrorNodes + 1 }) := by
  unfold statsStep Manager.GetNode Manager.GetNodeStatus
  rw [h]

theorem statsStep_fold (m : Manager) (ids : List String) :
    ∀ s : DomainStats,
      (ids.foldl (statsStep m) s).TotalNodes =
        s.TotalNodes + (ids.filter (resolvesIn m)).length ∧
      (ids.foldl (statsStep m) s).OnlineNodes =
        s.OnlineNodes + (ids.filter (fun id => hasStatus m id .online)).length ∧
      (ids.foldl (statsStep m) s).OfflineNodes =
        s.OfflineNodes + (ids.filter (fun id => hasStatus m id .offline)).length ∧
      (ids.foldl (statsStep m) s).ErrorNodes =
        s.ErrorNodes + (ids.filter (fun id => hasStatus m id .error)).length := by
  induction ids with
  | nil => intro s; simp
  | cons id rest ih =>
    intro s
    simp only [List.foldl_cons, List.filter_cons]
    cases h : getk m.nodes id with
    | none =>
      rw [statsStep_unfold_none h]
      have h1 : resolvesIn m id = false := by simp [resolvesIn, h]
      have h2 : ∀ st, hasStatus m id st = false := fun st => by simp [hasStatus, h]
      simp [h1, h2, ih]
    | some n =>
      rw [statsStep_unfold_some h]
      have h1 : resolvesIn m id = true := by simp [resolvesIn, h]
      have h2 : ∀ st, hasStatus m id st = decide (n.Status = st) := fun st => by
        simp [hasStatus, h]
      cases hst : n.Status with
      | online =>
        simp only [hst]
        obtain ⟨i1, i2, i3, i4⟩ :=
          ih { s with TotalNodes := s.TotalNodes + 1, OnlineNodes := s.OnlineNodes + 1 }
        refine ⟨?_, ?_, ?_, ?_⟩ <;>
          · simp [h1, h2, hst, i1, i2, i3, i4]
            try omega
      | offline =>
        simp only [hst]
        obtain ⟨i1, i2, i3, i4⟩ :=
          ih { s with TotalNodes := s.TotalNodes + 1, OfflineNodes := s.OfflineNodes + 1 }
        refine ⟨?_, ?_, ?_, ?_⟩ <;>
          · simp [h1, h2, hst, i1, i2, i3, i4]
            try omega
      | error =>
        simp only [hst]
        obtain ⟨i1, i2, i3, i4⟩ :=
          ih { s with TotalNodes := s.TotalNodes + 1, ErrorNodes := s.ErrorNodes + 1 }
        refine ⟨?_, ?_, ?_, ?_⟩ <;>
          · simp [h1, h2, hst, i1, i2, i3, i4]
            try omega

theorem resolves_split (m : Manager) (ids : List String) :
    (ids.filter (resolvesIn m)).length =
      (ids.filter (fun id => hasStatus m id .online)).length +
      (ids.filter (fun id => hasStatus m id .offline)).length +
      (ids.filter (fun id => hasStatus m id .error)).length := by
  induction ids with
  | nil => simp
  | cons id rest ih =>
    simp only [List.filter_cons]
    cases h : getk m.nodes id with
    | none =>
      have h1 : resolvesIn m id = false := by simp [resolvesIn, h]
      have h2 : ∀ st, hasStatus m id st = false := fun st => by simp [hasStatus, h]
      simp [h1, h2, ih]
    | some n =>
      have h1 : resolvesIn m id = true := by simp [resolvesIn, h]
      have h2 : ∀ st, hasStatus m id st = decide (n.Status = st) := fun st => by
        simp [hasStatus, h]
      cases hst : n.Status <;>
        · simp only [h1, h2, hst]
          simp
          omega

/-- C9: for an existing domain, `GetDomainStats` counts in `TotalNodes`
exactly the `NodeIDs` entries that currently resolve in the global nodes map
(unresolvable IDs touch no counter), each resolved node increments exactly
the bucket matching its status, and `TotalNodes` is the sum of the three
buckets. -/
theorem c9_main (m : Manager) (domainID : String) (domain : Domain)
    (hdom : getk m.domains domainID = some domain) :
    Service.GetDomainStats m domainID =
      .ok { TotalNodes := (domain.NodeIDs.filter (resolvesIn m)).length
            OnlineNodes :=
              (domain.NodeIDs.filter (fun id => hasStatus m id .online)).length
            OfflineNodes :=
              (domain.NodeIDs.filter (fun id => hasStatus m id .offline)).length
            ErrorNodes :=
              (domain.NodeIDs.filter (fun id => hasStatus m id .error)).length } ∧
    (domain.NodeIDs.filter (resolvesIn m)).length =
      (domain.NodeIDs.filter (fun id => hasStatus m id .online)).length +
      (domain.NodeIDs.filter (fun id => hasStatus m id .offline)).length +
      (domain.NodeIDs.filter (fun id => hasStatus m id .error)).length := by
  refine ⟨?_, resolves_split m domain.NodeIDs⟩
  have hget : m.GetDomain domainID = .ok domain := by
    unfold Manager.GetDomain
    rw [hdom]
  unfold Service.GetDomainStats
  rw [hget]
  show Except.ok (domain.NodeIDs.foldl (statsStep m) ⟨0, 0, 0, 0⟩) = _
  congr 1
  obtain ⟨h1, h2, h3, h4⟩ := statsStep_fold m domain.NodeIDs ⟨0, 0, 0, 0⟩
  cases hV : domain.NodeIDs.foldl (statsStep m) (⟨0, 0, 0, 0⟩ : DomainStats) with
  | mk t o f e =>
    rw [hV] at h1 h2 h3 h4
    simp only [Nat.zero_add] at h1 h2 h3 h4
    rw [h1, h2, h3, h4]

/-- Witness state for C9: one domain listing a live node, a ghost entry and
an offline node. -/
def c9Manager : Manager :=
  { domains := [("d1",
      { ID := "d1", Name := "prod", Description := "", ResourceTags := none,
        HeadNodeID := none, NodeIDs := ["n1", "ghost", "n2"], CreatedAt := 0,
        UpdatedAt := 0 })]
    nodes := [("n1",
      { ID := "n1", DomainID := "d1", Name := "n1", Address := "a:1", IsHead := false,
        Status := .online, ResourceTags := none, ResourceCapacity := none,
        LastSeen := 0, CreatedAt := 0, UpdatedAt := 0 }),
      ("n2",
      { ID := "n2", DomainID := "d1", Name := "n2", Address := "", IsHead := false,
        Status := .offline, ResourceTags := none, ResourceCapacity := none,
        LastSeen := 0, CreatedAt := 0, UpdatedAt := 0 })]
    timeoutDuration := 30
    cleanupDuration := 60 }

theorem c9_witness :
    Service.GetDomainStats c9Manager "d1" =
      .ok { TotalNodes := 2, OnlineNodes := 1, OfflineNodes := 1, ErrorNodes := 0 } := by
  have h := (c9_main c9Manager "d1"
    { ID := "d1", Name := "prod", Description := "", ResourceTags := none,
      HeadNodeID := none, NodeIDs := ["n1", "ghost", "n2"], CreatedAt := 0,
      UpdatedAt := 0 } (by decide)).1
  rw [h]
  rfl

/-! ### C5: the scheduler never surfaces an RPC error -/

theorem selectRandomNode_no_candidates {m : Manager} {rr : ResourceInfo} {i j : Nat}
    (hsel : selectCandidates m rr = []) :
    selectRandomNode m rr i j = .error "no domain has nodes with sufficient capacity" := by
  unfold selectRandomNode
  simp [hsel]

theorem dispatch_error_nonempty (e : String) : ("node dispatch failed: " ++ e) ≠ "" := by
  intro hcontra
  have hl := congrArg String.length hcontra
  rw [String.length_append] at hl
  have h22 : "node dispatch failed: ".length = 22 := rfl
  have h0 : "".length = 0 := rfl
  omega

/-- C5: `DeployComponent` returns `(response, nil)` — never an RPC-level
error — for a nil request, a nil `ResourceRequest`, an empty candidate set
(with the exact error string, independent of the downstream `forward` step),
and a dial/invocation failure; every failure response has `success = false`
and a non-empty error string. -/
theorem c5_main :
    (∀ (m : Manager) (i j : Nat)
        (forward : Node → Except String DeployComponentResponse),
      DeployComponent m none i j forward = (failureResponse "request is required", none)) ∧
    (∀ (m : Manager) (r : DeployComponentRequest) (i j : Nat)
        (forward : Node → Except String DeployComponentResponse),
      r.ResourceRequest = none →
      DeployComponent m (some r) i j forward =
        (failureResponse "resource_request is required", none)) ∧
    (∀ (m : Manager) (r : DeployComponentRequest) (rr : ResourceInfo) (i j : Nat)
        (forward : Node → Except String DeployComponentResponse),
      r.ResourceRequest = some rr → selectCandidates m rr = [] →
      DeployComponent m (some r) i j forward =
        (failureResponse "no domain has nodes with sufficient capacity", none)) ∧
    (∀ (m : Manager) (r : DeployComponentRequest) (rr : ResourceInfo) (i j : Nat)
        (forward : Node → Except String DeployComponentResponse) (node : Node)
        (e : String),
      r.ResourceRequest = some rr → selectRandomNode m rr i j = .ok node →
      forward node = .error e →
      DeployComponent m (some r) i j forward =
        (failureResponse ("node dispatch failed: " ++ e), none)) ∧
    (∀ msg : String, (failureResponse msg).Success = false ∧
      (failureResponse msg).Error = msg) ∧
    (∀ e : String, ("node dispatch failed: " ++ e) ≠ "") ∧
    ((("request is required" : String) ≠ "") ∧
      (("resource_request is required" : String) ≠ "") ∧
      (("no domain has nodes with sufficient capacity" : String) ≠ "")) := by
  refine ⟨?_, ?_, ?_, ?_, ?_, dispatch_error_nonempty, by decide, by decide, by decide⟩
  · intro m i j forward
    rfl
  · intro m r i j forward hrr
    unfold DeployComponent
    simp only [hrr]
  · intro m r rr i j forward hrr hsel
    unfold DeployComponent
    simp only [hrr, selectRandomNode_no_candidates (i := i) (j := j) hsel]
  · intro m r rr i j forward node e hrr hsel hfwd
    unfold DeployComponent
    simp only [hrr, hsel, hfwd]
  · intro msg
    exact ⟨rfl, rfl⟩

/-- Witness data for C5: a store with one schedulable head node. -/
def c5Node : Node :=
  { ID := "n1", DomainID := "d1", Name := "n1", Address := "h:1", IsHead := true,
    Status := .online, ResourceTags := some ⟨true, false, true, false⟩,
    ResourceCapacity := some ⟨some ⟨1000, 1, 2048⟩, some ⟨1000, 1, 2048⟩⟩,
    LastSeen := 0, CreatedAt := 0, UpdatedAt := 0 }

def c5Manager : Manager :=
  { domains := [("d1",
      { ID := "d1", Name := "prod", Description := "", ResourceTags := none,
        HeadNodeID := some "n1", NodeIDs := ["n1"], CreatedAt := 0, UpdatedAt := 0 })]
    nodes := [("n1", c5Node)]
    timeoutDuration := 30
    cleanupDuration := 60 }

def c5Request : ResourceInfo := { Cpu := 100, Gpu := 0, Memory := 1024, Tags := ["cpu"] }

theorem c5_witness :
    DeployComponent NewManager none 0 0 (fun _ => .ok ⟨true, ""⟩) =
      (failureResponse "request is required", none) ∧
    DeployComponent NewManager (some ⟨none⟩) 0 0 (fun _ => .ok ⟨true, ""⟩) =
      (failureResponse "resource_request is required", none) ∧
    DeployComponent NewManager (some ⟨some c5Request⟩) 0 0 (fun _ => .ok ⟨true, ""⟩) =
      (failureResponse "no domain has nodes with sufficient capacity", none) ∧
    DeployComponent c5Manager (some ⟨some c5Request⟩) 0 0 (fun _ => .error "boom") =
      (failureResponse "node dispatch failed: boom", none) :=
  ⟨c5_main.1 NewManager 0 0 _,
   c5_main.2.1 NewManager ⟨none⟩ 0 0 _ rfl,
   c5_main.2.2.1 NewManager ⟨some c5Request⟩ c5Request 0 0 _ rfl rfl,
   c5_main.2.2.2.1 c5Manager ⟨some c5Request⟩ c5Request 0 0 _ c5Node "boom" rfl
     (by decide) rfl⟩

/-! ### C4: scheduler eligibility and the two-level draw -/

/-- The eligibility rule exactly as claim C4 words it: the required-tag
vocabulary is the four literal names `cpu`, `gpu`, `memory`, `camera` (any
other tag name makes the node ineligible), compared case-sensitively. -/
def claimEligible (resourceReq : ResourceInfo) (node : Node) : Prop :=
  node.Status = .online ∧
  node.Address ≠ "" ∧
  (∀ tag ∈ resourceReq.Tags,
    (tag = "cpu" ∧ (node.ResourceTags.getD NewEmptyResourceTags).CPU = true) ∨
    (tag = "gpu" ∧ (node.ResourceTags.getD NewEmptyResourceTags).GPU = true) ∨
    (tag = "memory" ∧ (node.ResourceTags.getD NewEmptyResourceTags).Memory = true) ∨
    (tag = "camera" ∧ (node.ResourceTags.getD NewEmptyResourceTags).Camera = true)) ∧
  (∃ c a, node.ResourceCapacity = some c ∧ c.Available = some a ∧
    a.CPU ≥ resourceReq.Cpu ∧ a.Memory ≥ resourceReq.Memory ∧ a.GPU ≥ resourceReq.Gpu)

/-- A node whose tag vector has CPU set, paired with the request tag "CPU":
the code accepts it (case-insensitive match), the claim's case-sensitive
vocabulary rejects it. -/
def c4Node : Node :=
  { ID := "n1", DomainID := "d1", Name := "n1", Address := "h:1", IsHead := false,
    Status := .online, ResourceTags := some ⟨true, false, false, false⟩,
    ResourceCapacity := some ⟨some ⟨1000, 1, 2048⟩, some ⟨1000, 1, 2048⟩⟩,
    LastSeen := 0, CreatedAt := 0, UpdatedAt := 0 }

def c4Request : ResourceInfo := { Cpu := 0, Gpu := 0, Memory := 0, Tags := ["CPU"] }

/-- C4 as stated is false: with required tag "CPU" the filter accepts a node
with the cpu capability (tags are lowercased before matching), while the
claim's case-sensitive vocabulary calls the node ineligible. -/
theorem c4_counterexample :
    eligibleNode c4Request c4Node = true ∧ ¬ claimEligible c4Request c4Node := by
  refine ⟨by decide, ?_⟩
  rintro ⟨-, -, htags, -⟩
  have h := htags "CPU" (by simp [c4Request])
  rcases h with ⟨h1, -⟩ | ⟨h1, -⟩ | ⟨h1, -⟩ | ⟨h1, -⟩ <;> exact absurd h1 (by decide)

theorem tagCheck_iff (tags : ResourceTags) (tag : String) :
    ((if toLowerStr tag = "cpu" then tags.CPU
      else if toLowerStr tag = "gpu" then tags.GPU
      else if toLowerStr tag = "memory" then tags.Memory
      else if toLowerStr tag = "camera" then tags.Camera
      else false) = true) ↔
      ((toLowerStr tag = "cpu" ∧ tags.CPU = true) ∨
       (toLowerStr tag = "gpu" ∧ tags.GPU = true) ∨
       (toLowerStr tag = "memory" ∧ tags.Memory = true) ∨
       (toLowerStr tag = "camera" ∧ tags.Camera = true)) := by
  by_cases h1 : toLowerStr tag = "cpu"
  · simp [h1]
  · by_cases h2 : toLowerStr tag = "gpu"
    · simp [h1, h2]
    · by_cases h3 : toLowerStr tag = "memory"
      · simp [h1, h2, h3]
      · by_cases h4 : toLowerStr tag = "camera"
        · simp [h1, h2, h3, h4]
        · simp [h1, h2, h3, h4]

theorem nodeHasRequiredTags_iff (nodeTags : Option ResourceTags) (required : List String)
    (hne : required ≠ []) :
    nodeHasRequiredTags nodeTags required = true ↔
      ∀ tag ∈ required,
        (toLowerStr tag = "cpu" ∧ (nodeTags.getD NewEmptyResourceTags).CPU = true) ∨
        (toLowerStr tag = "gpu" ∧ (nodeTags.getD NewEmptyResourceTags).GPU = true) ∨
        (toLowerStr tag = "memory" ∧ (nodeTags.getD NewEmptyResourceTags).Memory = true) ∨
        (toLowerStr tag = "camera" ∧
          (nodeTags.getD NewEmptyResourceTags).Camera = true) := by
  unfold nodeHasRequiredTags
  rw [if_neg (by simpa using hne)]
  cases nodeTags with
  | none =>
    simp only [Option.getD]
    constructor
    · intro h
      cases h
    · intro h
      obtain ⟨tag, htag⟩ := List.exists_mem_of_ne_nil required hne
      have := h tag htag
      rcases this with ⟨-, hc⟩ | ⟨-, hc⟩ | ⟨-, hc⟩ | ⟨-, hc⟩ <;> cases hc
  | some tags =>
    rw [List.all_eq_true]
    constructor
    · intro h tag htag
      have := h tag htag
      simp only [Option.getD]
      exact (tagCheck_iff tags tag).mp this
    · intro h tag htag
      exact (tagCheck_iff tags tag).mpr (by simpa using h tag htag)

theorem hasSufficientResources_iff (capacity : Option ResourceCapacity)
    (rr : ResourceInfo) :
    hasSufficientResources capacity rr = true ↔
      ∃ c a, capacity = some c ∧ c.Available = some a ∧
        a.CPU ≥ rr.Cpu ∧ a.Memory ≥ rr.Memory ∧ a.GPU ≥ rr.Gpu := by
  unfold hasSufficientResources
  cases capacity with
  | none => simp
  | some c =>
    cases hav : c.Available with
    | none => simp [hav]
    | some a =>
      simp only [hav]
      constructor
      · intro h
        by_cases h1 : a.CPU < rr.Cpu
        · rw [if_pos h1] at h
          cases h
        · by_cases h2 : a.Memory < rr.Memory
          · rw [if_neg h1, if_pos h2] at h
            cases h
          · by_cases h3 : a.GPU < rr.Gpu
            · rw [if_neg h1, if_neg h2, if_pos h3] at h
              cases h
            · exact ⟨c, a, rfl, hav, by omega, by omega, by omega⟩
      · rintro ⟨c2, a2, hc2, ha2, hcc, hmm2, hgg⟩
        cases hc2
        rw [hav] at ha2
        cases ha2
        rw [if_neg (by omega), if_neg (by omega), if_neg (by omega)]

/-- Amended C4, part 1: the filter accepts a node iff it is online with a
non-empty address, every required tag *lowercased* names one of the four
capabilities and that capability is true (a nil tag vector, read as
all-false, and an unknown tag both fail), and the node's Available capacity
covers the request. -/
theorem c4_eligible_iff (rr : ResourceInfo) (node : Node) :
    eligibleNode rr node = true ↔
      (node.Status = .online ∧ node.Address ≠ "" ∧
       (∀ tag ∈ rr.Tags,
         (toLowerStr tag = "cpu" ∧
           (node.ResourceTags.getD NewEmptyResourceTags).CPU = true) ∨
         (toLowerStr tag = "gpu" ∧
           (node.ResourceTags.getD NewEmptyResourceTags).GPU = true) ∨
         (toLowerStr tag = "memory" ∧
           (node.ResourceTags.getD NewEmptyResourceTags).Memory = true) ∨
         (toLowerStr tag = "camera" ∧
           (node.ResourceTags.getD NewEmptyResourceTags).Camera = true)) ∧
       (∃ c a, node.ResourceCapacity = some c ∧ c.Available = some a ∧
         a.CPU ≥ rr.Cpu ∧ a.Memory ≥ rr.Memory ∧ a.GPU ≥ rr.Gpu)) := by
  unfold eligibleNode
  by_cases h1 : node.Status = .online
  · rw [if_neg (by simp [h1])]
    by_cases h2 : node.Address = ""
    · rw [if_pos h2]
      constructor
      · intro hf
        cases hf
      · rintro ⟨-, ha, -⟩
        exact absurd h2 ha
    · rw [if_neg h2]
      by_cases hgate : rr.Tags = [] ∨ nodeHasRequiredTags node.ResourceTags rr.Tags = true
      · have hno : ¬(rr.Tags.length > 0 ∧
            ¬nodeHasRequiredTags node.ResourceTags rr.Tags = true) := by
          rcases hgate with h | h
          · rintro ⟨hlen, -⟩
            rw [h] at hlen
            simp at hlen
          · rintro ⟨-, hn⟩
            exact hn h
        rw [if_neg hno]
        have htagIff : ∀ tag ∈ rr.Tags,
            (toLowerStr tag = "cpu" ∧
              (node.ResourceTags.getD NewEmptyResourceTags).CPU = true) ∨
            (toLowerStr tag = "gpu" ∧
              (node.ResourceTags.getD NewEmptyResourceTags).GPU = true) ∨
            (toLowerStr tag = "memory" ∧
              (node.ResourceTags.getD NewEmptyResourceTags).Memory = true) ∨
            (toLowerStr tag = "camera" ∧
              (node.ResourceTags.getD NewEmptyResourceTags).Camera = true) := by
          rcases hgate with h | h
          · intro tag htag
            rw [h] at htag
            cases htag
          · rcases hempty : rr.Tags with _ | ⟨t, ts⟩
            · intro tag htag
              cases htag
            · rw [← hempty]
              exact (nodeHasRequiredTags_iff _ _ (by rw [hempty]; simp)).mp h
        by_cases h4 : hasSufficientResources node.ResourceCapacity rr = true
        · rw [if_neg (by simp [h4])]
          have hcap := (hasSufficientResources_iff _ _).mp h4
          constructor
          · intro _
            exact ⟨h1, h2, htagIff, hcap⟩
          · intro _
            rfl
        · rw [if_pos (by simpa using h4)]
          constructor
          · intro hf
            cases hf
          · rintro ⟨-, -, -, hcap⟩
            exact absurd ((hasSufficientResources_iff _ _).mpr hcap) h4
      · rw [not_or] at hgate
        obtain ⟨hne, hnot⟩ := hgate
        rw [if_pos ⟨List.length_pos.mpr hne, by simpa using hnot⟩]
        constructor
        · intro hf
          cases hf
        · rintro ⟨-, -, htags, -⟩
          exact absurd ((nodeHasRequiredTags_iff _ _ hne).mpr htags) hnot
  · rw [if_pos (by simp [h1])]
    constructor
    · intro hf
      cases hf
    · rintro ⟨hs, -⟩
      exact absurd hs h1

theorem map_clone (l : List Node) : l.map Node.Clone = l := by
  induction l with
  | nil => rfl
  | cons x rest ih => simp [Node.Clone, ih]

/-- The per-domain candidate constructor inside `selectRandomNode`. -/
def candOf (m : Manager) (rr : ResourceInfo) (domain : Domain) : Option DomainNodes :=
  match m.GetNodesByDomain domain.ID with
  | .error _ => none
  | .ok nodes =>
    if ((nodes.filter (eligibleNode rr)).map Node.Clone).length > 0 then
      some ⟨domain.ID, (nodes.filter (eligibleNode rr)).map Node.Clone⟩
    else none

theorem candOf_some_inv {m : Manager} {rr : ResourceInfo} {domain : Domain}
    {dn : DomainNodes} (h : candOf m rr domain = some dn) :
    dn.domainID = domain.ID ∧ dn.nodes ≠ [] ∧
      ∀ node ∈ dn.nodes, eligibleNode rr node = true := by
  unfold candOf at h
  cases hnodes : m.GetNodesByDomain domain.ID with
  | error e =>
    rw [hnodes] at h
    exact Option.noConfusion h
  | ok nodes =>
    simp only [hnodes] at h
    by_cases hlen : ((nodes.filter (eligibleNode rr)).map Node.Clone).length > 0
    · rw [if_pos hlen] at h
      cases h
      refine ⟨rfl, ?_, ?_⟩
      · intro hnil
        have hnil2 : (nodes.filter (eligibleNode rr)).map Node.Clone = [] := hnil
        rw [hnil2] at hlen
        simp at hlen
      · intro node hnode
        have hnode2 : node ∈ (nodes.filter (eligibleNode rr)).map Node.Clone := hnode
        rw [map_clone] at hnode2
        exact List.of_mem_filter hnode2
    · rw [if_neg hlen] at h
      cases h

/-- Append an optional element (the shape of the candidate-collection fold). -/
def appendOpt {β : Type} (acc : List β) (y? : Option β) : List β :=
  match y? with
  | none => acc
  | some y => acc ++ [y]

theorem foldl_appendOpt {α β : Type} (g : α → Option β) (l : List α) :
    ∀ acc : List β,
      l.foldl (fun acc x => appendOpt acc (g x)) acc = acc ++ l.filterMap g := by
  induction l with
  | nil => intro acc; simp
  | cons x rest ih =>
    intro acc
    rw [List.foldl_cons]
    cases hx : g x with
    | none =>
      rw [ih]
      simp [appendOpt, List.filterMap_cons, hx]
    | some y =>
      rw [ih]
      simp [appendOpt, List.filterMap_cons, hx]

theorem filterMap_map_sublist {α β γ : Type} (g : α → Option β) (f : β → γ)
    (h : α → γ) (hfg : ∀ a b, g a = some b → f b = h a) (l : List α) :
    List.Sublist ((l.filterMap g).map f) (l.map h) := by
  induction l with
  | nil => simp
  | cons x rest ih =>
    rw [List.filterMap_cons, List.map_cons]
    cases hx : g x with
    | none => exact List.Sublist.cons _ ih
    | some b =>
      rw [List.map_cons, hfg x b hx]
      exact List.Sublist.cons₂ _ ih

theorem selectCandidates_eq (m : Manager) (rr : ResourceInfo) :
    selectCandidates m rr = m.GetAllDomains.filterMap (candOf m rr) := by
  unfold selectCandidates
  have hbody : (fun (cands : List DomainNodes) (domain : Domain) =>
      match m.GetNodesByDomain domain.ID with
      | .error _ => cands
      | .ok nodes =>
        if ((nodes.filter (eligibleNode rr)).map Node.Clone).length > 0 then
          cands ++ [(⟨domain.ID, (nodes.filter (eligibleNode rr)).map Node.Clone⟩ :
            DomainNodes)]
        else cands) =
      (fun cands domain => appendOpt cands (candOf m rr domain)) := by
    funext cands domain
    unfold candOf
    cases m.GetNodesByDomain domain.ID with
    | error e => rfl
    | ok nodes =>
      by_cases h : 0 < (nodes.filter (eligibleNode rr)).length <;>
        simp [appendOpt, h]
  rw [hbody, foldl_appendOpt]
  simp

/-- Amended C4, part 2: domains with no eligible node are discarded, every
candidate node passed the filter, the draw takes candidate `i` then its node
`j`, and — because each domain occurs at most once among the candidates —
the domain-level draw gives every candidate domain the same single slot,
independent of its node count. -/
theorem c4_selection (m : Manager) (rr : ResourceInfo) :
    (∀ dn ∈ selectCandidates m rr,
      dn.nodes ≠ [] ∧ ∀ node ∈ dn.nodes, eligibleNode rr node = true) ∧
    (selectCandidates m rr = [] →
      ∀ i j, selectRandomNode m rr i j =
        .error "no domain has nodes with sufficient capacity") ∧
    (selectCandidates m rr ≠ [] →
      ∀ i j, selectRandomNode m rr i j =
        .ok (((selectCandidates m rr).getD i ⟨"", []⟩).nodes.getD j defaultNode)) ∧
    ((keysOf m.domains).Nodup → (∀ p ∈ m.domains, p.2.ID = p.1) →
      ∀ dID ∈ (selectCandidates m rr).map DomainNodes.domainID,
        ((selectCandidates m rr).map DomainNodes.domainID).count dID = 1) := by
  refine ⟨?_, ?_, ?_, ?_⟩
  · intro dn hdn
    rw [selectCandidates_eq] at hdn
    obtain ⟨domain, hmem, hcand⟩ := List.mem_filterMap.mp hdn
    exact (candOf_some_inv hcand).2
  · intro hsel i j
    exact selectRandomNode_no_candidates hsel
  · intro hsel i j
    unfold selectRandomNode
    rw [if_neg (by simpa using hsel)]
  · intro hkeys hids dID hdID
    have hsub : List.Sublist ((selectCandidates m rr).map DomainNodes.domainID)
        (m.GetAllDomains.map Domain.ID) := by
      rw [selectCandidates_eq]
      refine filterMap_map_sublist _ _ _ ?_ _
      intro domain dn hcand
      exact (candOf_some_inv hcand).1
    have hnodup : (m.GetAllDomains.map Domain.ID).Nodup := by
      unfold Manager.GetAllDomains
      rw [List.map_map]
      have hmapeq : m.domains.map (Domain.ID ∘ Prod.snd) = m.domains.map Prod.fst :=
        List.map_congr_left (fun p hp => hids p hp)
      rw [hmapeq]
      exact hkeys
    exact List.count_eq_one_of_mem (hnodup.sublist hsub) hdID

/-- C4 amended: the full characterization, bundling the eligibility iff with
the draw structure and the per-domain fairness count. -/
theorem c4_main :
    (∀ (rr : ResourceInfo) (node : Node),
      eligibleNode rr node = true ↔
        (node.Status = .online ∧ node.Address ≠ "" ∧
         (∀ tag ∈ rr.Tags,
           (toLowerStr tag = "cpu" ∧
             (node.ResourceTags.getD NewEmptyResourceTags).CPU = true) ∨
           (toLowerStr tag = "gpu" ∧
             (node.ResourceTags.getD NewEmptyResourceTags).GPU = true) ∨
           (toLowerStr tag = "memory" ∧
             (node.ResourceTags.getD NewEmptyResourceTags).Memory = true) ∨
           (toLowerStr tag = "camera" ∧
             (node.ResourceTags.getD NewEmptyResourceTags).Camera = true)) ∧
         (∃ c a, node.ResourceCapacity = some c ∧ c.Available = some a ∧
           a.CPU ≥ rr.Cpu ∧ a.Memory ≥ rr.Memory ∧ a.GPU ≥ rr.Gpu))) ∧
    (∀ (m : Manager) (rr : ResourceInfo),
      (∀ dn ∈ selectCandidates m rr,
        dn.nodes ≠ [] ∧ ∀ node ∈ dn.nodes, eligibleNode rr node = true) ∧
      (selectCandidates m rr = [] →
        ∀ i j, selectRandomNode m rr i j =
          .error "no domain has nodes with sufficient capacity") ∧
      (selectCandidates m rr ≠ [] →
        ∀ i j, selectRandomNode m rr i j =
          .ok (((selectCandidates m rr).getD i ⟨"", []⟩).nodes.getD j defaultNode)) ∧
      ((keysOf m.domains).Nodup → (∀ p ∈ m.domains, p.2.ID = p.1) →
        ∀ dID ∈ (selectCandidates m rr).map DomainNodes.domainID,
          ((selectCandidates m rr).map DomainNodes.domainID).count dID = 1)) :=
  ⟨c4_eligible_iff, c4_selection⟩

theorem c4_witness :
    eligibleNode c5Request c5Node = true ∧
    (((selectCandidates c5Manager c5Request).map DomainNodes.domainID).count "d1" = 1) := by
  constructor
  · exact (c4_main.1 c5Request c5Node).mpr
      ⟨rfl, by decide, by decide,
        ⟨⟨some ⟨1000, 1, 2048⟩, some ⟨1000, 1, 2048⟩⟩, ⟨1000, 1, 2048⟩, rfl, rfl,
          by decide, by decide, by decide⟩⟩
  · exact (c4_main.2 c5Manager c5Request).2.2.2 (by decide) (by decide) "d1" (by decide)

/-! ### C7: the `RegisterNode` contract -/

/-- The node `RegisterNode` constructs for a valid request (the literal of
part_001: empty address, not a head, offline, empty tag vector, all three
timestamps at registration time). -/
def registeredNode (req : RegisterNodeRequest) (now : Int) : Node :=
  { ID := req.NodeId
    DomainID := req.DomainId
    Name := req.NodeName
    Address := ""
    IsHead := false
    Status := .offline
    ResourceTags := some NewEmptyResourceTags
    ResourceCapacity := none
    CreatedAt := now
    UpdatedAt := now
    LastSeen := now }

/-- C7: `RegisterNode` rejects an empty domain id, node id or node name with
the corresponding required-field error; rejects an unknown domain with the
not-found error; on success inserts exactly the node with empty `Address`,
`IsHead = false`, status offline and empty tags under the requested node id;
and after a success, the store holds that node exactly once, and a second
registration of the same node id (with a resolvable domain) fails with the
already-exists error, which leaves the store unchanged. -/
theorem c7_main (m : Manager) (req : RegisterNodeRequest) (now : Int) :
    (req.DomainId = "" →
      Server.RegisterNode m req now = .error (.requiredField "domain_id")) ∧
    (req.DomainId ≠ "" → req.NodeId = "" →
      Server.RegisterNode m req now = .error (.requiredField "node_id")) ∧
    (req.DomainId ≠ "" → req.NodeId ≠ "" → req.NodeName = "" →
      Server.RegisterNode m req now = .error (.requiredField "node_name")) ∧
    (req.DomainId ≠ "" → req.NodeId ≠ "" → req.NodeName ≠ "" →
      getk m.domains req.DomainId = none →
      Server.RegisterNode m req now = .error .domainNotFound) ∧
    (∀ domain, req.DomainId ≠ "" → req.NodeId ≠ "" → req.NodeName ≠ "" →
      getk m.domains req.DomainId = some domain →
      getk m.nodes req.NodeId = none →
      Server.RegisterNode m req now =
        .ok (addNodeResult m (registeredNode req now) domain now,
          ⟨domain.Name, domain.Description⟩)) ∧
    (∀ m1 resp, Server.RegisterNode m req now = .ok (m1, resp) →
      getk m1.nodes req.NodeId = some (registeredNode req now) ∧
      (keysOf m1.nodes).count req.NodeId = 1 ∧
      ∀ (req2 : RegisterNodeRequest) (now2 : Int), req2.NodeId = req.NodeId →
        req2.DomainId ≠ "" → req2.NodeName ≠ "" →
        (getk m1.domains req2.DomainId).isSome →
        Server.RegisterNode m1 req2 now2 =
          .error (.addNodeFailed .nodeAlreadyExists)) := by
  refine ⟨?_, ?_, ?_, ?_, ?_, ?_⟩
  · intro h1
    unfold Server.RegisterNode
    rw [if_pos h1]
  · intro h1 h2
    unfold Server.RegisterNode
    rw [if_neg h1, if_pos h2]
  · intro h1 h2 h3
    unfold Server.RegisterNode
    rw [if_neg h1, if_neg h2, if_pos h3]
  · intro h1 h2 h3 hdom
    unfold Server.RegisterNode
    rw [if_neg h1, if_neg h2, if_neg h3]
    have hgd : m.GetDomain req.DomainId = .error .domainNotFound := by
      unfold Manager.GetDomain
      rw [hdom]
    simp only [hgd]
  · intro domain h1 h2 h3 hdom hfresh
    unfold Server.RegisterNode
    rw [if_neg h1, if_neg h2, if_neg h3]
    have hgd : m.GetDomain req.DomainId = .ok domain := by
      unfold Manager.GetDomain
      rw [hdom]
    simp only [hgd]
    have hfresh2 : getk m.nodes (registeredNode req now).ID = none := hfresh
    have hdom2 : getk m.domains (registeredNode req now).DomainID = some domain := hdom
    have hlit : Manager.AddNode m
        { ID := req.NodeId, DomainID := req.DomainId, Name := req.NodeName,
          Address := "", IsHead := false, Status := .offline,
          ResourceTags := some NewEmptyResourceTags, ResourceCapacity := none,
          CreatedAt := now, UpdatedAt := now, LastSeen := now } now =
        .ok (addNodeResult m (registeredNode req now) domain now) :=
      addNode_ok hfresh2 hdom2
    simp only [hlit]
  · intro m1 resp h
    unfold Server.RegisterNode at h
    by_cases h1 : req.DomainId = ""
    · rw [if_pos h1] at h; cases h
    · rw [if_neg h1] at h
      by_cases h2 : req.NodeId = ""
      · rw [if_pos h2] at h; cases h
      · rw [if_neg h2] at h
        by_cases h3 : req.NodeName = ""
        · rw [if_pos h3] at h; cases h
        · rw [if_neg h3] at h
          cases hgd : m.GetDomain req.DomainId with
          | error e => rw [hgd] at h; cases h
          | ok domain =>
            rw [hgd] at h
            cases hadd : m.AddNode
                { ID := req.NodeId, DomainID := req.DomainId, Name := req.NodeName,
                  Address := "", IsHead := false, Status := .offline,
                  ResourceTags := some NewEmptyResourceTags, ResourceCapacity := none,
                  CreatedAt := now, UpdatedAt := now, LastSeen := now } now with
            | error e => simp only [hadd] at h; cases h
            | ok m1x =>
              simp only [hadd] at h
              have hp := except_ok_inj h
              cases hp
              obtain ⟨hfresh, domain2, hdom2, rfl⟩ := addNode_ok_inv hadd
              have hfresh2 : getk m.nodes req.NodeId = none := hfresh
              have hget : getk (addNodeResult m
                  { ID := req.NodeId, DomainID := req.DomainId, Name := req.NodeName,
                    Address := "", IsHead := false, Status := .offline,
                    ResourceTags := some NewEmptyResourceTags, ResourceCapacity := none,
                    CreatedAt := now, UpdatedAt := now, LastSeen := now } domain2 now).nodes
                  req.NodeId = some (registeredNode req now) :=
                getk_setk_self m.nodes req.NodeId (registeredNode req now)
              refine ⟨hget, ?_, ?_⟩
              · have hnm : req.NodeId ∉ keysOf m.nodes := by
                  intro hmem
                  have hs := getk_isSome_of_mem_keys hmem
                  rw [hfresh2] at hs
                  simp at hs
                have hk : keysOf (addNodeResult m
                    { ID := req.NodeId, DomainID := req.DomainId, Name := req.NodeName,
                      Address := "", IsHead := false, Status := .offline,
                      ResourceTags := some NewEmptyResourceTags, ResourceCapacity := none,
                      CreatedAt := now, UpdatedAt := now, LastSeen := now } domain2 now).nodes =
                    keysOf m.nodes ++ [req.NodeId] :=
                  keysOf_setk_of_fresh hfresh2 (registeredNode req now)
                rw [hk, List.count_append, List.count_eq_zero.mpr hnm]
                simp
              · intro req2 now2 hid hd2 hn2 hds
                unfold Server.RegisterNode
                rw [if_neg hd2, if_neg (by rw [hid]; exact h2), if_neg hn2]
                obtain ⟨d2, hd2v⟩ := Option.isSome_iff_exists.mp hds
                have hgd2 : Manager.GetDomain (addNodeResult m
                    { ID := req.NodeId, DomainID := req.DomainId, Name := req.NodeName,
                      Address := "", IsHead := false, Status := .offline,
                      ResourceTags := some NewEmptyResourceTags, ResourceCapacity := none,
                      CreatedAt := now, UpdatedAt := now, LastSeen := now } domain2 now)
                    req2.DomainId = .ok d2 := by
                  unfold Manager.GetDomain
                  rw [hd2v]
                simp only [hgd2]
                have hsome : (getk (addNodeResult m
                    { ID := req.NodeId, DomainID := req.DomainId, Name := req.NodeName,
                      Address := "", IsHead := false, Status := .offline,
                      ResourceTags := some NewEmptyResourceTags, ResourceCapacity := none,
                      CreatedAt := now, UpdatedAt := now, LastSeen := now } domain2 now).nodes
                    req2.NodeId).isSome := by
                  rw [hid, hget]
                  rfl
                have haddEq : Manager.AddNode (addNodeResult m
                    { ID := req.NodeId, DomainID := req.DomainId, Name := req.NodeName,
                      Address := "", IsHead := false, Status := .offline,
                      ResourceTags := some NewEmptyResourceTags, ResourceCapacity := none,
                      CreatedAt := now, UpdatedAt := now, LastSeen := now } domain2 now)
                    { ID := req2.NodeId, DomainID := req2.DomainId, Name := req2.NodeName,
                      Address := "", IsHead := false, Status := .offline,
                      ResourceTags := some NewEmptyResourceTags, ResourceCapacity := none,
                      CreatedAt := now2, UpdatedAt := now2, LastSeen := now2 } now2 =
                    .error .nodeAlreadyExists :=
                  addNode_err_exists hsome
                simp only [haddEq]

def c7Manager : Manager :=
  { domains := [("d1", mkStoredDomain "d1" "prod" "main" 0)]
    nodes := []
    timeoutDuration := 30
    cleanupDuration := 60 }

theorem c7_witness :
    Server.RegisterNode c7Manager ⟨"", "n1", "node one"⟩ 5 =
      .error (.requiredField "domain_id") ∧
    Server.RegisterNode c7Manager ⟨"dX", "n1", "node one"⟩ 5 =
      .error .domainNotFound ∧
    Server.RegisterNode c7Manager ⟨"d1", "n1", "node one"⟩ 5 =
      .ok (addNodeResult c7Manager (registeredNode ⟨"d1", "n1", "node one"⟩ 5)
        (mkStoredDomain "d1" "prod" "main" 0) 5, ⟨"prod", "main"⟩) ∧
    Server.RegisterNode
        (addNodeResult c7Manager (registeredNode ⟨"d1", "n1", "node one"⟩ 5)
          (mkStoredDomain "d1" "prod" "main" 0) 5) ⟨"d1", "n1", "node two"⟩ 9 =
      .error (.addNodeFailed .nodeAlreadyExists) := by
  have hsucc := (c7_main c7Manager ⟨"d1", "n1", "node one"⟩ 5).2.2.2.2.1
    (mkStoredDomain "d1" "prod" "main" 0) (by decide) (by decide) (by decide) rfl rfl
  refine ⟨(c7_main c7Manager ⟨"", "n1", "node one"⟩ 5).1 rfl,
    (c7_main c7Manager ⟨"dX", "n1", "node one"⟩ 5).2.2.2.1
      (by decide) (by decide) (by decide) rfl,
    hsucc,
    ((c7_main c7Manager ⟨"d1", "n1", "node one"⟩ 5).2.2.2.2.2 _ _ hsucc).2.2
      ⟨"d1", "n1", "node two"⟩ 9 rfl (by decide) (by decide) rfl⟩

/-! ### C8: the `HealthCheck` update on an existing node -/

/-- C8: a `HealthCheck` on an existing node succeeds; the stored node ends
with the reported status, both `LastSeen` and `UpdatedAt` at the request
time, the address overwritten only when the request's address is non-empty,
the tags overwritten only when the request supplies tags, `IsHead` the OR of
the old flag and the caller's assertion (so never cleared by this path), and
`ID`, `DomainID`, `Name`, `CreatedAt` (and `ResourceCapacity`) unchanged;
every other key of the nodes map is untouched. -/
theorem c8_main (m : Manager) (req : HealthCheckRequest) (now : Int) (node : Node)
    (h1 : req.NodeId ≠ "") (h2 : req.DomainId ≠ "")
    (hnode : getk m.nodes req.NodeId = some node) :
    ∃ m2 resp, Server.HealthCheck m req now = .ok (m2, resp) ∧
      (∀ k, k ≠ req.NodeId → getk m2.nodes k = getk m.nodes k) ∧
      ∃ final, getk m2.nodes req.NodeId = some final ∧
        final.ID = node.ID ∧
        final.DomainID = node.DomainID ∧
        final.Name = node.Name ∧
        final.CreatedAt = node.CreatedAt ∧
        final.ResourceCapacity = node.ResourceCapacity ∧
        final.Status = convertProtoNodeStatus req.Status ∧
        final.LastSeen = now ∧
        final.UpdatedAt = now ∧
        final.Address = (if req.Address = "" then node.Address else req.Address) ∧
        final.ResourceTags = (match req.ResourceTags with
          | none => node.ResourceTags
          | some _ => some (convertProtoResourceTags req.ResourceTags)) ∧
        final.IsHead = (node.IsHead || req.IsHead) ∧
        (node.IsHead = true → final.IsHead = true) := by
  have hgn : m.GetNode req.NodeId = .ok node := by
    unfold Manager.GetNode
    rw [hnode]
  have hupd : m.UpdateNode req.NodeId (healthCheckUpdateFn req now) now =
      .ok (replaceRefresh m req.NodeId
        { healthCheckUpdateFn req now node with UpdatedAt := now } now) :=
    updateNode_ok hnode
  have hn1 : getk (replaceRefresh m req.NodeId
      { healthCheckUpdateFn req now node with UpdatedAt := now } now).nodes req.NodeId =
      some { healthCheckUpdateFn req now node with UpdatedAt := now } := by
    rw [replaceRefresh_nodes]
    exact getk_setk_self _ _ _
  have hst : (replaceRefresh m req.NodeId
      { healthCheckUpdateFn req now node with UpdatedAt := now } now).UpdateNodeStatus
        req.NodeId (convertProtoNodeStatus req.Status) now =
      .ok (replaceRefresh
        (replaceRefresh m req.NodeId
          { healthCheckUpdateFn req now node with UpdatedAt := now } now)
        req.NodeId
        { { healthCheckUpdateFn req now node with UpdatedAt := now } with
          Status := convertProtoNodeStatus req.Status, LastSeen := now,
          UpdatedAt := now } now) := by
    unfold Manager.UpdateNodeStatus
    exact @updateNode_ok _ _
      { healthCheckUpdateFn req now node with UpdatedAt := now }
      (fun node =>
        { node with
          Status := convertProtoNodeStatus req.Status
          LastSeen := now })
      _ hn1
  have hrun : Server.HealthCheck m req now =
      .ok (replaceRefresh
        (replaceRefresh m req.NodeId
          { healthCheckUpdateFn req now node with UpdatedAt := now } now)
        req.NodeId
        { { healthCheckUpdateFn req now node with UpdatedAt := now } with
          Status := convertProtoNodeStatus req.Status, LastSeen := now,
          UpdatedAt := now } now,
        ⟨now, 30, false, "success", "Health check processed successfully"⟩) := by
    unfold Server.HealthCheck
    rw [if_neg h1, if_neg h2]
    simp only [hgn, hupd, hst]
  obtain ⟨sID, sDom, sName, sCreated, sCap, sStatus, sLast, sUp, sAddr, sTags, sHead⟩ :=
    healthCheckUpdateFn_spec req now node
  refine ⟨_, _, hrun, ?_, ?_⟩
  · intro k hk
    rw [replaceRefresh_nodes, getk_setk_ne _ _ hk, replaceRefresh_nodes,
      getk_setk_ne _ _ hk]
  · refine ⟨{ { healthCheckUpdateFn req now node with UpdatedAt := now } with
        Status := convertProtoNodeStatus req.Status, LastSeen := now,
        UpdatedAt := now }, ?_, sID, sDom, sName, sCreated, sCap, rfl, rfl, rfl,
      sAddr, sTags, sHead, ?_⟩
    · rw [replaceRefresh_nodes]
      exact getk_setk_self _ _ _
    · intro hh
      show (healthCheckUpdateFn req now node).IsHead = true
      rw [sHead, hh]
      rfl

def c8Node : Node :=
  { ID := "n1", DomainID := "d1", Name := "node one", Address := "h:1",
    IsHead := false, Status := .offline, ResourceTags := none,
    ResourceCapacity := none, LastSeen := 0, CreatedAt := 0, UpdatedAt := 0 }

def c8Manager : Manager :=
  { domains := [("d1",
      { ID := "d1", Name := "prod", Description := "", ResourceTags := none,
        HeadNodeID := none, NodeIDs := ["n1"], CreatedAt := 0, UpdatedAt := 0 })]
    nodes := [("n1", c8Node)]
    timeoutDuration := 30
    cleanupDuration := 60 }

def c8Req : HealthCheckRequest :=
  { NodeId := "n1", DomainId := "d1", Address := "", IsHead := true,
    Status := .online, ResourceTags := none }

theorem c8_witness :
    ∃ m2 resp, Server.HealthCheck c8Manager c8Req 50 = .ok (m2, resp) ∧
      (∀ k, k ≠ c8Req.NodeId → getk m2.nodes k = getk c8Manager.nodes k) ∧
      ∃ final, getk m2.nodes c8Req.NodeId = some final ∧
        final.ID = c8Node.ID ∧
        final.DomainID = c8Node.DomainID ∧
        final.Name = c8Node.Name ∧
        final.CreatedAt = c8Node.CreatedAt ∧
        final.ResourceCapacity = c8Node.ResourceCapacity ∧
        final.Status = convertProtoNodeStatus c8Req.Status ∧
        final.LastSeen = 50 ∧
        final.UpdatedAt = 50 ∧
        final.Address = (if c8Req.Address = "" then c8Node.Address else c8Req.Address) ∧
        final.ResourceTags = (match c8Req.ResourceTags with
          | none => c8Node.ResourceTags
          | some _ => some (convertProtoResourceTags c8Req.ResourceTags)) ∧
        final.IsHead = (c8Node.IsHead || c8Req.IsHead) ∧
        (c8Node.IsHead = true → final.IsHead = true) :=
  c8_main c8Manager c8Req 50 c8Node (by decide) (by decide) rfl

/-! ### C6: the `AddNode` contract and the dead rollback branch -/

def c6n1 : Node :=
  { ID := "n1", DomainID := "d1", Name := "n1", Address := "a1", IsHead := true,
    Status := .online, ResourceTags := none, ResourceCapacity := none,
    LastSeen := 0, CreatedAt := 0, UpdatedAt := 0 }

def c6n2 : Node :=
  { ID := "n2", DomainID := "d1", Name := "n2", Address := "a2", IsHead := true,
    Status := .online, ResourceTags := none, ResourceCapacity := none,
    LastSeen := 0, CreatedAt := 0, UpdatedAt := 0 }

def c6Ops : List Op := [.addDomain "d1" "prod" "" 0, .addNode c6n1 0]

/-- C6 as stated is false: in a reachable state whose domain already has head
"n1", `AddNode` of a second head node does *not* roll back with
`NodeNotInDomain` — it succeeds and overwrites `HeadNodeID` ( `SetHeadNode`
only checks membership, and the just-appended ID is always a member). -/
theorem c6_counterexample :
    (getk (run c6Ops).domains "d1").map Domain.HeadNodeID = some (some "n1") ∧
    ((run c6Ops).AddNode c6n2 1).toOption.isSome = true ∧
    (((run c6Ops).AddNode c6n2 1).toOption.bind
      (fun mx => (getk mx.domains "d1").map Domain.HeadNodeID)) = some (some "n2") :=
  ⟨rfl, rfl, rfl⟩

/-- Amended C6: `AddNode` fails with `NodeAlreadyExists` when the ID is taken
and with `DomainNotFound` when the domain is absent; on success it inserts
the node, appends the ID to the domain's `NodeIDs`, and — when `IsHead` is
set — overwrites `HeadNodeID` unconditionally (the rollback branch is
unreachable, so no `NodeNotInDomain` error and no restore ever happen). -/
theorem c6_main (m : Manager) (node : Node) (now : Int) :
    ((getk m.nodes node.ID).isSome →
      m.AddNode node now = .error .nodeAlreadyExists) ∧
    (getk m.nodes node.ID = none → getk m.domains node.DomainID = none →
      m.AddNode node now = .error .domainNotFound) ∧
    (∀ domain, getk m.nodes node.ID = none →
      getk m.domains node.DomainID = some domain →
      ∃ m2, m.AddNode node now = .ok m2 ∧
        getk m2.nodes node.ID = some node ∧
        (∀ k, k ≠ node.ID → getk m2.nodes k = getk m.nodes k) ∧
        ∃ d2, getk m2.domains node.DomainID = some d2 ∧
          d2.NodeIDs = (domain.AddNode node.ID).NodeIDs ∧
          d2.HeadNodeID = (if node.IsHead then some node.ID else domain.HeadNodeID) ∧
          (∀ k, k ≠ node.DomainID → getk m2.domains k = getk m.domains k)) := by
  refine ⟨?_, ?_, ?_⟩
  · intro hs
    exact addNode_err_exists hs
  · intro hfresh hdom
    exact addNode_err_domain hfresh hdom
  · intro domain hfresh hdom
    have hnodes : (addNodeResult m node domain now).nodes = setk m.nodes node.ID node := by
      rw [addNodeResult_eq]
    have hdoms : (addNodeResult m node domain now).domains =
        setk m.domains node.DomainID
          { ID := domain.ID
            Name := domain.Name
            Description := domain.Description
            ResourceTags := some
              (aggTags (setk m.nodes node.ID node) (domain.AddNode node.ID).NodeIDs)
            HeadNodeID := if node.IsHead then some node.ID else domain.HeadNodeID
            NodeIDs := (domain.AddNode node.ID).NodeIDs
            CreatedAt := domain.CreatedAt
            UpdatedAt := now } := by
      rw [addNodeResult_eq]
    refine ⟨addNodeResult m node domain now, addNode_ok hfresh hdom, ?_, ?_, ?_⟩
    · rw [hnodes]
      exact getk_setk_self _ _ _
    · intro k hk
      rw [hnodes, getk_setk_ne _ _ hk]
    · refine ⟨{ ID := domain.ID,
                Name := domain.Name,
                Description := domain.Description,
                ResourceTags := some
                  (aggTags (setk m.nodes node.ID node) (domain.AddNode node.ID).NodeIDs),
                HeadNodeID := if node.IsHead then some node.ID else domain.HeadNodeID,
                NodeIDs := (domain.AddNode node.ID).NodeIDs,
                CreatedAt := domain.CreatedAt,
                UpdatedAt := now }, ?_, rfl, rfl, ?_⟩
      · rw [hdoms]
        exact getk_setk_self _ _ _
      · intro k hk
        rw [hdoms, getk_setk_ne _ _ hk]

def c6Domain : Domain :=
  { ID := "d1", Name := "prod", Description := "",
    ResourceTags := some ⟨false, false, false, false⟩, HeadNodeID := some "n1",
    NodeIDs := ["n1"], CreatedAt := 0, UpdatedAt := 0 }

def c6Manager : Manager :=
  { domains := [("d1", c6Domain)]
    nodes := [("n1", c6n1)]
    timeoutDuration := 30
    cleanupDuration := 60 }

theorem c6_witness :
    ∃ m2, c6Manager.AddNode c6n2 1 = .ok m2 ∧
      getk m2.nodes c6n2.ID = some c6n2 ∧
      (∀ k, k ≠ c6n2.ID → getk m2.nodes k = getk c6Manager.nodes k) ∧
      ∃ d2, getk m2.domains c6n2.DomainID = some d2 ∧
        d2.NodeIDs = (c6Domain.AddNode c6n2.ID).NodeIDs ∧
        d2.HeadNodeID = (if c6n2.IsHead then some c6n2.ID else c6Domain.HeadNodeID) ∧
        (∀ k, k ≠ c6n2.DomainID → getk m2.domains k = getk c6Manager.domains k) :=
  (c6_main c6Manager c6n2 1).2.2 c6Domain rfl rfl

/-! ### C2: the head-node invariant -/

def c2n1 : Node :=
  { ID := "n1", DomainID := "d1", Name := "n1", Address := "a1", IsHead := true,
    Status := .online, ResourceTags := none, ResourceCapacity := none,
    LastSeen := 0, CreatedAt := 0, UpdatedAt := 0 }

def c2n2 : Node :=
  { ID := "n2", DomainID := "d1", Name := "n2", Address := "a2", IsHead := true,
    Status := .online, ResourceTags := none, ResourceCapacity := none,
    LastSeen := 0, CreatedAt := 0, UpdatedAt := 0 }

def c2Ops : List Op := [.addDomain "d1" "prod" "" 0, .addNode c2n1 0]

def c2OpsTwo : List Op :=
  [.addDomain "d1" "prod" "" 0, .addNode c2n1 0, .addNode c2n2 0]

/-- C2 as stated is false: adding two head nodes to one domain is a plain
sequence of `AddNode` calls, and both stored nodes keep `IsHead = true` — "at
most one node has IsHead=true" does not hold in this reachable state. -/
theorem c2_counterexample :
    Reachable (run c2OpsTwo) ∧
    getk (run c2OpsTwo).nodes "n1" = some c2n1 ∧
    getk (run c2OpsTwo).nodes "n2" = some c2n2 ∧
    c2n1.DomainID = "d1" ∧ c2n2.DomainID = "d1" ∧
    c2n1.IsHead = true ∧ c2n2.IsHead = true ∧ c2n1.ID ≠ c2n2.ID :=
  ⟨⟨c2OpsTwo, rfl⟩, rfl, rfl, rfl, rfl, rfl, rfl, by decide⟩

/-- Amended C2: in every reachable state, whenever a domain's `HeadNodeID` is
set it names a member of its `NodeIDs` that resolves to a node owned by the
domain with `IsHead = true` (several members may carry `IsHead`; the pointer
singles out the most recent head assignment). -/
theorem c2_main {m : Manager} (hm : Reachable m) {k : String} {d : Domain}
    (hd : getk m.domains k = some d) {h : String} (hh : d.HeadNodeID = some h) :
    h ∈ d.NodeIDs ∧
      ∃ n, getk m.nodes h = some n ∧ n.DomainID = k ∧ n.IsHead = true := by
  obtain ⟨ops, rfl⟩ := hm
  have hwf := wf_run ops
  obtain ⟨hmem, n, hn, hhead⟩ := hwf.headMem hd hh
  obtain ⟨n2, hn2, hdom2⟩ := hwf.ownership hd hmem
  rw [hn] at hn2
  cases hn2
  exact ⟨hmem, n, hn, hdom2, hhead⟩

def c2StoredDomain : Domain :=
  { ID := "d1", Name := "prod", Description := "",
    ResourceTags := some ⟨false, false, false, false⟩, HeadNodeID := some "n1",
    NodeIDs := ["n1"], CreatedAt := 0, UpdatedAt := 0 }

theorem c2_witness :
    "n1" ∈ c2StoredDomain.NodeIDs ∧
      ∃ n, getk (run c2Ops).nodes "n1" = some n ∧
        n.DomainID = "d1" ∧ n.IsHead = true :=
  @c2_main (run c2Ops) ⟨c2Ops, rfl⟩ "d1" c2StoredDomain rfl "n1" rfl

/-! ### C3: one sweeper tick, and the configured thresholds -/

theorem addNodeResult_durations (m : Manager) (node : Node) (domain : Domain) (now : Int) :
    (addNodeResult m node domain now).timeoutDuration = m.timeoutDuration ∧
    (addNodeResult m node domain now).cleanupDuration = m.cleanupDuration :=
  ⟨rfl, rfl⟩

theorem addNode_durations {m m2 : Manager} {node : Node} {now : Int}
    (h : m.AddNode node now = .ok m2) :
    m2.timeoutDuration = m.timeoutDuration ∧ m2.cleanupDuration = m.cleanupDuration := by
  obtain ⟨-, domain, -, rfl⟩ := addNode_ok_inv h
  exact ⟨rfl, rfl⟩

theorem addDomain_durations {m m2 : Manager} {d : Domain}
    (h : m.AddDomain d = .ok m2) :
    m2.timeoutDuration = m.timeoutDuration ∧ m2.cleanupDuration = m.cleanupDuration := by
  unfold Manager.AddDomain at h
  by_cases hs : (getk m.domains d.ID).isSome
  · rw [if_pos hs] at h
    cases h
  · rw [if_neg hs] at h
    have := except_ok_inj h
    rw [← this]
    exact ⟨rfl, rfl⟩

theorem updateNode_durations {m m2 : Manager} {nodeID : String} {f : Node → Node}
    {now : Int} (h : m.UpdateNode nodeID f now = .ok m2) :
    m2.timeoutDuration = m.timeoutDuration ∧ m2.cleanupDuration = m.cleanupDuration := by
  cases hx : getk m.nodes nodeID with
  | none =>
    rw [updateNode_err hx] at h
    cases h
  | some node =>
    rw [updateNode_ok hx] at h
    have := except_ok_inj h
    rw [← this]
    exact replaceRefresh_durations _ _ _ _

theorem removeNodeResult_durations (m : Manager) (nodeID : String) (node : Node)
    (now : Int) :
    (removeNodeResult m nodeID node now).timeoutDuration = m.timeoutDuration ∧
    (removeNodeResult m nodeID node now).cleanupDuration = m.cleanupDuration := by
  unfold removeNodeResult
  cases getk m.domains node.DomainID <;> exact ⟨rfl, rfl⟩

theorem removeNode_durations {m m2 : Manager} {nodeID : String} {now : Int}
    (h : m.RemoveNode nodeID now = .ok m2) :
    m2.timeoutDuration = m.timeoutDuration ∧ m2.cleanupDuration = m.cleanupDuration := by
  cases hx : getk m.nodes nodeID with
  | none =>
    rw [removeNode_err hx] at h
    cases h
  | some node =>
    rw [removeNode_ok hx] at h
    have := except_ok_inj h
    rw [← this]
    exact removeNodeResult_durations _ _ _ _

theorem removeDomain_durations {m m2 : Manager} {domainID : String}
    (h : m.RemoveDomain domainID = .ok m2) :
    m2.timeoutDuration = m.timeoutDuration ∧ m2.cleanupDuration = m.cleanupDuration := by
  cases hx : getk m.domains domainID with
  | none =>
    rw [removeDomain_err hx] at h
    cases h
  | some domain =>
    rw [removeDomain_ok hx] at h
    have := except_ok_inj h
    rw [← this]
    exact ⟨rfl, rfl⟩

theorem registerNode_durations {m : Manager} {req : RegisterNodeRequest} {now : Int}
    {p : Manager × RegisterNodeResponse} (h : Server.RegisterNode m req now = .ok p) :
    p.1.timeoutDuration = m.timeoutDuration ∧ p.1.cleanupDuration = m.cleanupDuration := by
  obtain ⟨node, hadd⟩ := registerNode_ok_inv h
  exact addNode_durations hadd

theorem updateNodeStatus_durations {m m2 : Manager} {nodeID : String}
    {status : NodeStatus} {now : Int}
    (h : m.UpdateNodeStatus nodeID status now = .ok m2) :
    m2.timeoutDuration = m.timeoutDuration ∧ m2.cleanupDuration = m.cleanupDuration := by
  unfold Manager.UpdateNodeStatus at h
  exact updateNode_durations h

theorem healthCheck_durations {m : Manager} {req : HealthCheckRequest} {now : Int}
    {p : Manager × HealthCheckResponse} (h : Server.HealthCheck m req now = .ok p) :
    p.1.timeoutDuration = m.timeoutDuration ∧ p.1.cleanupDuration = m.cleanupDuration := by
  unfold Server.HealthCheck at h
  by_cases h1 : req.NodeId = ""
  · rw [if_pos h1] at h; cases h
  · rw [if_neg h1] at h
    by_cases h2 : req.DomainId = ""
    · rw [if_pos h2] at h; cases h
    · rw [if_neg h2] at h
      cases hnode : m.GetNode req.NodeId with
      | error e =>
        simp only [hnode] at h
        cases hdom : m.GetDomain req.DomainId with
        | error e2 => simp only [hdom] at h; cases h
        | ok domain =>
          simp only [hdom] at h
          cases hadd : m.AddNode
              { ID := req.NodeId, DomainID := req.DomainId, Name := req.NodeId,
                Address := req.Address, IsHead := req.IsHead,
                Status := convertProtoNodeStatus req.Status,
                ResourceTags := some (convertProtoResourceTags req.ResourceTags),
                ResourceCapacity := none, CreatedAt := now, UpdatedAt := now,
                LastSeen := now } now with
          | error e3 => simp only [hadd] at h; cases h
          | ok m1 =>
            simp only [hadd] at h
            have hp := except_ok_inj h
            rw [← hp]
            exact addNode_durations hadd
      | ok node0 =>
        simp only [hnode] at h
        cases hupd : m.UpdateNode req.NodeId (healthCheckUpdateFn req now) now with
        | error e => simp only [hupd] at h; cases h
        | ok m1 =>
          simp only [hupd] at h
          have hd1 := updateNode_durations hupd
          cases hst : m1.UpdateNodeStatus req.NodeId (convertProtoNodeStatus req.Status) now with
          | ok m2 =>
            simp only [hst] at h
            have hp := except_ok_inj h
            rw [← hp]
            have hd2 := updateNodeStatus_durations hst
            exact ⟨hd2.1.trans hd1.1, hd2.2.trans hd1.2⟩
          | error e =>
            simp only [hst] at h
            have hp := except_ok_inj h
            rw [← hp]
            exact hd1

theorem phase1_durations (now : Int) (l : List String) :
    ∀ st : Manager × List String,
      (l.foldl (sweepVisit now) st).1.timeoutDuration = st.1.timeoutDuration ∧
      (l.foldl (sweepVisit now) st).1.cleanupDuration = st.1.cleanupDuration := by
  induction l with
  | nil => intro st; exact ⟨rfl, rfl⟩
  | cons id rest ih =>
    intro st
    simp only [List.foldl_cons]
    have h1 := ih (sweepVisit now st id)
    have h2 := @sweepVisit_durations now st id
    exact ⟨h1.1.trans h2.1, h1.2.trans h2.2⟩

theorem phase2_durations (now : Int) (ids : List String) :
    ∀ mm : Manager,
      (ids.foldl (fun acc nodeID => acc.removeNodeUnsafe nodeID now) mm).timeoutDuration =
        mm.timeoutDuration ∧
      (ids.foldl (fun acc nodeID => acc.removeNodeUnsafe nodeID now) mm).cleanupDuration =
        mm.cleanupDuration := by
  induction ids with
  | nil => intro mm; exact ⟨rfl, rfl⟩
  | cons id rest ih =>
    intro mm
    simp only [List.foldl_cons]
    have h1 := ih (mm.removeNodeUnsafe id now)
    have h2 := removeNodeUnsafe_durations mm id now
    exact ⟨h1.1.trans h2.1, h1.2.trans h2.2⟩

theorem checkNodeTimeouts_durations (m : Manager) (now : Int) :
    (m.checkNodeTimeouts now).timeoutDuration = m.timeoutDuration ∧
    (m.checkNodeTimeouts now).cleanupDuration = m.cleanupDuration := by
  unfold Manager.checkNodeTimeouts
  have h1 := phase2_durations now ((keysOf m.nodes).foldl (sweepVisit now) (m, [])).2
    ((keysOf m.nodes).foldl (sweepVisit now) (m, [])).1
  have h2 := phase1_durations now (keysOf m.nodes) (m, [])
  exact ⟨h1.1.trans h2.1, h1.2.trans h2.2⟩

theorem applyOp_durations (m : Manager) (op : Op) :
    (applyOp m op).timeoutDuration = m.timeoutDuration ∧
    (applyOp m op).cleanupDuration = m.cleanupDuration := by
  cases op with
  | addDomain id name description t =>
    show (orKeep m (m.AddDomain (mkStoredDomain id name description t))).timeoutDuration
        = m.timeoutDuration ∧
      (orKeep m (m.AddDomain (mkStoredDomain id name description t))).cleanupDuration
        = m.cleanupDuration
    cases h : m.AddDomain (mkStoredDomain id name description t) with
    | error e => exact ⟨rfl, rfl⟩
    | ok m2 => exact addDomain_durations h
  | addNode n now =>
    show (orKeep m (m.AddNode n now)).timeoutDuration = m.timeoutDuration ∧
      (orKeep m (m.AddNode n now)).cleanupDuration = m.cleanupDuration
    cases h : m.AddNode n now with
    | error e => exact ⟨rfl, rfl⟩
    | ok m2 => exact addNode_durations h
  | registerNode req now =>
    show ((match Server.RegisterNode m req now with
        | .ok (m1, _) => m1
        | .error _ => m) : Manager).timeoutDuration = m.timeoutDuration ∧
      ((match Server.RegisterNode m req now with
        | .ok (m1, _) => m1
        | .error _ => m) : Manager).cleanupDuration = m.cleanupDuration
    cases h : Server.RegisterNode m req now with
    | error e => exact ⟨rfl, rfl⟩
    | ok p =>
      obtain ⟨m1, resp⟩ := p
      exact registerNode_durations h
  | healthCheck req now =>
    show ((match Server.HealthCheck m req now with
        | .ok (m1, _) => m1
        | .error _ => m) : Manager).timeoutDuration = m.timeoutDuration ∧
      ((match Server.HealthCheck m req now with
        | .ok (m1, _) => m1
        | .error _ => m) : Manager).cleanupDuration = m.cleanupDuration
    cases h : Server.HealthCheck m req now with
    | error e => exact ⟨rfl, rfl⟩
    | ok p =>
      obtain ⟨m1, resp⟩ := p
      exact healthCheck_durations h
  | updateNodeStatus id status now =>
    show (orKeep m (m.UpdateNodeStatus id status now)).timeoutDuration =
        m.timeoutDuration ∧
      (orKeep m (m.UpdateNodeStatus id status now)).cleanupDuration = m.cleanupDuration
    cases h : m.UpdateNodeStatus id status now with
    | error e => exact ⟨rfl, rfl⟩
    | ok m2 => exact updateNodeStatus_durations h
  | removeNode id now =>
    show (orKeep m (m.RemoveNode id now)).timeoutDuration = m.timeoutDuration ∧
      (orKeep m (m.RemoveNode id now)).cleanupDuration = m.cleanupDuration
    cases h : m.RemoveNode id now with
    | error e => exact ⟨rfl, rfl⟩
    | ok m2 => exact removeNode_durations h
  | removeDomain id =>
    show (orKeep m (m.RemoveDomain id)).timeoutDuration = m.timeoutDuration ∧
      (orKeep m (m.RemoveDomain id)).cleanupDuration = m.cleanupDuration
    cases h : m.RemoveDomain id with
    | error e => exact ⟨rfl, rfl⟩
    | ok m2 => exact removeDomain_durations h
  | sweep now =>
    exact checkNodeTimeouts_durations m now

theorem foldl_applyOp_durations (ops : List Op) :
    ∀ m : Manager,
      (ops.foldl applyOp m).timeoutDuration = m.timeoutDuration ∧
      (ops.foldl applyOp m).cleanupDuration = m.cleanupDuration := by
  induction ops with
  | nil => intro m; exact ⟨rfl, rfl⟩
  | cons op rest ih =>
    intro m
    simp only [List.foldl_cons]
    have h1 := ih (applyOp m op)
    have h2 := applyOp_durations m op
    exact ⟨h1.1.trans h2.1, h1.2.trans h2.2⟩

theorem reachable_durations {m : Manager} (hm : Reachable m) :
    m.timeoutDuration = 30 ∧ m.cleanupDuration = 60 := by
  obtain ⟨ops, rfl⟩ := hm
  have h := foldl_applyOp_durations ops NewManager
  exact ⟨h.1, h.2⟩

/-- C3: in every reachable store the sweeper thresholds are the defaults
(`T_timeout = 30`, `T_evict = 2 x T_timeout = 60`), and one tick behaves
per-node as a trichotomy: an offline-or-error node last seen more than
`T_evict` ago disappears from the nodes map, from every domain's `NodeIDs`
and from every `HeadNodeID`; an online node last seen more than `T_timeout`
ago is stored back with `Status = offline` and `UpdatedAt = now`; every
other node is unchanged, and absent keys stay absent.  Every affected
domain is stamped `UpdatedAt = now` with its tags re-aggregated over the
post-tick nodes map. -/
theorem c3_main {m : Manager} (hm : Reachable m) (now : Int) :
    m.timeoutDuration = 30 ∧ m.cleanupDuration = 2 * m.timeoutDuration ∧
    (∀ x, getk m.nodes x = none → getk (m.checkNodeTimeouts now).nodes x = none) ∧
    (∀ x n, getk m.nodes x = some n →
      getk (m.checkNodeTimeouts now).nodes x =
        (if evictCond now m.cleanupDuration n then none
         else if timeoutCond now m.timeoutDuration n
         then some { n with Status := .offline, UpdatedAt := now }
         else some n)) ∧
    (∀ x n, getk m.nodes x = some n →
      (evictCond now m.cleanupDuration n ∨ timeoutCond now m.timeoutDuration n) →
      ∀ d, getk (m.checkNodeTimeouts now).domains n.DomainID = some d →
        d.UpdatedAt = now ∧
        d.ResourceTags = some (aggTags (m.checkNodeTimeouts now).nodes d.NodeIDs)) ∧
    (∀ x n, getk m.nodes x = some n → evictCond now m.cleanupDuration n →
      ∀ k d, getk (m.checkNodeTimeouts now).domains k = some d →
        x ∉ d.NodeIDs ∧ d.HeadNodeID ≠ some x) := by
  have hwf := wf_reachable hm
  have hwf2 := wf_checkNodeTimeouts now hwf
  have hdur := reachable_durations hm
  refine ⟨hdur.1, by rw [hdur.1, hdur.2]; decide, ?_, ?_, ?_, ?_⟩
  · intro x hx
    exact checkNodeTimeouts_nodes_none hwf.nodeKeysNodup hx
  · intro x n hx
    exact checkNodeTimeouts_nodes_some hwf.nodeKeysNodup hx
  · intro x n hx hcond d hd
    exact ⟨checkNodeTimeouts_domUp hwf.nodeKeysNodup hx hcond d hd, hwf2.tagsOK hd⟩
  · intro x n hx he k d hd
    have hgone : getk (m.checkNodeTimeouts now).nodes x = none := by
      rw [checkNodeTimeouts_nodes_some hwf.nodeKeysNodup hx, if_pos he]
    constructor
    · intro hmem
      obtain ⟨n2, hn2, -⟩ := hwf2.ownership hd hmem
      rw [hgone] at hn2
      cases hn2
    · intro hhead
      obtain ⟨-, n2, hn2, -⟩ := hwf2.headMem hd hhead
      rw [hgone] at hn2
      cases hn2

def c3n : Node :=
  { ID := "n1", DomainID := "d1", Name := "n1", Address := "a1", IsHead := false,
    Status := .online, ResourceTags := none, ResourceCapacity := none,
    LastSeen := 0, CreatedAt := 0, UpdatedAt := 0 }

def c3Ops : List Op := [.addDomain "d1" "prod" "" 0, .addNode c3n 0]

theorem c3_witness :
    (run c3Ops).timeoutDuration = 30 ∧
    (run c3Ops).cleanupDuration = 2 * (run c3Ops).timeoutDuration ∧
    (∀ x, getk (run c3Ops).nodes x = none →
      getk ((run c3Ops).checkNodeTimeouts 100).nodes x = none) ∧
    (∀ x n, getk (run c3Ops).nodes x = some n →
      getk ((run c3Ops).checkNodeTimeouts 100).nodes x =
        (if evictCond 100 (run c3Ops).cleanupDuration n then none
         else if timeoutCond 100 (run c3Ops).timeoutDuration n
         then some { n with Status := .offline, UpdatedAt := 100 }
         else some n)) ∧
    (∀ x n, getk (run c3Ops).nodes x = some n →
      (evictCond 100 (run c3Ops).cleanupDuration n ∨
        timeoutCond 100 (run c3Ops).timeoutDuration n) →
      ∀ d, getk ((run c3Ops).checkNodeTimeouts 100).domains n.DomainID = some d →
        d.UpdatedAt = 100 ∧
        d.ResourceTags =
          some (aggTags ((run c3Ops).checkNodeTimeouts 100).nodes d.NodeIDs)) ∧
    (∀ x n, getk (run c3Ops).nodes x = some n →
      evictCond 100 (run c3Ops).cleanupDuration n →
      ∀ k d, getk ((run c3Ops).checkNodeTimeouts 100).domains k = some d →
        x ∉ d.NodeIDs ∧ d.HeadNodeID ≠ some x) :=
  c3_main ⟨c3Ops, rfl⟩ 100

/-! ### C1: tag aggregation and the `UpdatedAt` stamp -/

/-- C1: (i) in every reachable state — hence immediately after every
completed mutation — every stored domain's `ResourceTags` is exactly the
field-wise OR of the tags of those `NodeIDs` members that resolve in the
nodes map, a nil tag vector contributing all-false; (ii) each tag-changing
mutation stamps the affected domain's `UpdatedAt` with the mutation time:
`AddNode`, `UpdateNode` (the HealthCheck intake path) and `RemoveNode` stamp
the mutated node's owning domain, and a sweeper tick stamps the domain of
every node it transitions offline or evicts. -/
theorem c1_main :
    (∀ m, Reachable m → ∀ k d, getk m.domains k = some d →
      d.ResourceTags = some (orReduction m.nodes d.NodeIDs)) ∧
    (∀ (m : Manager) (node : Node) (now : Int) (m2 : Manager),
      m.AddNode node now = .ok m2 → domUpdatedAtNow node.DomainID now m2) ∧
    (∀ (m : Manager) (nodeID : String) (f : Node → Node) (now : Int) (m2 : Manager)
      (n : Node), getk m.nodes nodeID = some n →
      m.UpdateNode nodeID f now = .ok m2 →
      domUpdatedAtNow ({ f n with UpdatedAt := now }).DomainID now m2) ∧
    (∀ (m : Manager) (nodeID : String) (now : Int) (m2 : Manager) (n : Node),
      getk m.nodes nodeID = some n → m.RemoveNode nodeID now = .ok m2 →
      domUpdatedAtNow n.DomainID now m2) ∧
    (∀ m : Manager, Reachable m → ∀ (now : Int) (x : String) (n : Node),
      getk m.nodes x = some n →
      (evictCond now m.cleanupDuration n ∨ timeoutCond now m.timeoutDuration n) →
      domUpdatedAtNow n.DomainID now (m.checkNodeTimeouts now)) := by
  refine ⟨?_, ?_, ?_, ?_, ?_⟩
  · intro m hm k d hd
    have hwf := wf_reachable hm
    rw [hwf.tagsOK hd, aggTags_eq_orReduction]
  · intro m node now m2 h
    obtain ⟨hfresh, domain, hdom, rfl⟩ := addNode_ok_inv h
    have hdoms : (addNodeResult m node domain now).domains =
        setk m.domains node.DomainID
          { ID := domain.ID,
            Name := domain.Name,
            Description := domain.Description,
            ResourceTags := some
              (aggTags (setk m.nodes node.ID node) (domain.AddNode node.ID).NodeIDs),
            HeadNodeID := if node.IsHead then some node.ID else domain.HeadNodeID,
            NodeIDs := (domain.AddNode node.ID).NodeIDs,
            CreatedAt := domain.CreatedAt,
            UpdatedAt := now } := by
      rw [addNodeResult_eq]
    intro d hd
    rw [hdoms, getk_setk_self] at hd
    cases hd
    rfl
  · intro m nodeID f now m2 n hn h
    rw [updateNode_ok hn] at h
    have h2 := except_ok_inj h
    rw [← h2]
    exact replaceRefresh_domUp_self
  · intro m nodeID now m2 n hn h
    rw [removeNode_ok hn] at h
    have h2 := except_ok_inj h
    rw [← h2]
    have h3 := @removeNodeUnsafe_domUp_self m nodeID now n hn
    rw [removeNodeUnsafe_found hn] at h3
    exact h3
  · intro m hm now x n hx hcond
    exact checkNodeTimeouts_domUp (wf_reachable hm).nodeKeysNodup hx hcond

def c1n : Node :=
  { ID := "n1", DomainID := "d1", Name := "n1", Address := "a1", IsHead := false,
    Status := .online, ResourceTags := some ⟨true, false, true, false⟩,
    ResourceCapacity := none, LastSeen := 0, CreatedAt := 0, UpdatedAt := 0 }

def c1Ops : List Op := [.addDomain "d1" "prod" "" 0, .addNode c1n 0]

def c1StoredDomain : Domain :=
  { ID := "d1", Name := "prod", Description := "",
    ResourceTags := some ⟨true, false, true, false⟩, HeadNodeID := none,
    NodeIDs := ["n1"], CreatedAt := 0, UpdatedAt := 0 }

theorem c1_witness :
    c1StoredDomain.ResourceTags =
      some (orReduction (run c1Ops).nodes c1StoredDomain.NodeIDs) ∧
    domUpdatedAtNow c1n.DomainID 5
      (addNodeResult (run [Op.addDomain "d1" "prod" "" 0]) c1n
        (mkStoredDomain "d1" "prod" "" 0) 5) :=
  ⟨c1_main.1 (run c1Ops) ⟨c1Ops, rfl⟩ "d1" c1StoredDomain rfl,
   c1_main.2.1 (run [Op.addDomain "d1" "prod" "" 0]) c1n 5 _ rfl⟩

end IarnetGlobal
